import Mathlib

/-!
Verification development for the Confluence-to-Markdown exporter
(`main.py`).  The source program is shallowly embedded: titles, tags,
attribute values and file contents are `List Char`; paths are lists of
path segments; the filesystem, the visited set and the various logs are
threaded explicitly through an `ExpState` record; Python exceptions are
modelled as an `Option Err` component that short-circuits the callers,
while the state reached so far (the filesystem) persists, exactly as it
does for an aborted Python process.
-/

set_option maxHeartbeats 1000000

/-! ### Python-style substring test and replacement

`hasSub pat s` models Python's `pat in s`, and `pyReplace pat repl s`
models `s.replace(pat, repl)`: the leftmost, non-overlapping occurrence
scan.  (The source only calls these with the non-empty patterns ".."
and "/".) -/

def hasSub (pat : List Char) : List Char → Bool
  | [] => pat.isEmpty
  | c :: rest => pat.isPrefixOf (c :: rest) || hasSub pat rest

def pyReplace (pat repl : List Char) : List Char → List Char
  | [] => []
  | c :: rest =>
    if pat.isPrefixOf (c :: rest) then
      repl ++ pyReplace pat repl (rest.drop (pat.length - 1))
    else
      c :: pyReplace pat repl rest
termination_by s => s.length
decreasing_by
  · simp only [List.length_drop, List.length_cons]; omega
  · simp only [List.length_cons]; omega

/-- The dangerous substring ".." hunted by `__sanitize_filename`. -/
def ddPat : List Char := "..".data

/-- The dangerous substring "/" hunted by `__sanitize_filename`. -/
def slashPat : List Char := "/".data

/-- The replacement "_" used by `__sanitize_filename`. -/
def usRep : List Char := "_".data

/-- `Exporter.__sanitize_filename`: for each invalid pattern in
`["..", "/"]`, in that order, if the pattern occurs in the name it is
replaced by "_" (the diagnostic log emitted alongside is not modelled;
the returned value is what matters to the callers). -/
def sanitize (t : List Char) : List Char :=
  let s1 := if hasSub ddPat t then pyReplace ddPat usRep t else t
  if hasSub slashPat s1 then pyReplace slashPat usRep s1 else s1

/-! ### Data model of the exporter

Pages, attachments and spaces are the records served by the wiki API
collaborator; `Env` packages the collaborators (page lookup, attachment
listing, download transport) plus the parsed instance URL.  `ExpState`
is the observable world: the visited set (in visit order), the
filesystem (later writes shadow earlier ones), the chronological list
of file-creating writes, the download invocations, the per-attachment
processing trace and the diagnostics relevant to the claims. -/

abbrev Seg := List Char

abbrev FPath := List Seg

structure Page where
  id : Nat
  title : List Char
  content : List Char
  whenUpdated : List Char
  childIds : List Nat
deriving DecidableEq

structure Att where
  title : List Char
  downloadRef : List Char
  mediaType : List Char
deriving DecidableEq

structure SpaceRec where
  key : List Char
  homepage : Option Nat
deriving DecidableEq

/-- Outcome of one `requests.get` stream: either it fails before the
target file is opened (connection error or bad HTTP status), or the
file is created and the given chunks are written, with `midFail`
recording a transport exception raised mid-iteration (after the chunks
already written). -/
inductive DlOutcome where
  | failEarly
  | stream (chunks : List (List Char)) (midFail : Bool)
deriving DecidableEq

structure Env where
  pages : List Page
  attachments : Nat → List Att
  transport : List Char → DlOutcome
  spaces : List SpaceRec
  scheme : List Char
  netloc : List Char

structure Config where
  space : Option (List Char)
  noAttach : Bool
  removableParents : List (List Char)
deriving DecidableEq

inductive Err where
  | duplicatePage
  | missingPage
  | noHomepage
  | pageFileMissing
  | outOfFuel
deriving DecidableEq

inductive LogMsg where
  | skipExisting (p : FPath)
  | downloadError (url : List Char)
  | noHomepageLog (key : List Char)
  | noSpacesLog
deriving DecidableEq

structure ExpState where
  seen : List Nat
  fs : List (FPath × List Char)
  writes : List FPath
  downloads : List (List Char)
  attLog : List (List Char)
  log : List LogMsg

def st0 : ExpState := ⟨[], [], [], [], [], []⟩

def fsGet (fs : List (FPath × List Char)) (p : FPath) : Option (List Char) :=
  (fs.find? (fun e => e.1 == p)).map (·.2)

def fsSet (fs : List (FPath × List Char)) (p : FPath) (c : List Char) :
    List (FPath × List Char) :=
  (p, c) :: fs

def fsHas (fs : List (FPath × List Char)) (p : FPath) : Bool :=
  (fsGet fs p).isSome

def envLookup (pages : List Page) (i : Nat) : Option Page :=
  pages.find? (fun p => p.id == i)

def attFolderSeg : Seg := "attachments".data

def htmlExt : List Char := ".html".data

def indexName : List Char := "index".data

/-- The "Last updated" marker appended to each page's raw content. -/
def lastUpdatedDiv (w : List Char) : List Char :=
  "<div>Last updated: ".data ++ w ++ "</div>".data

/-- `urlunparse((scheme, netloc, "/wiki/" + download.lstrip("/"), ...))`. -/
def mkAttUrl (env : Env) (ref : List Char) : List Char :=
  env.scheme ++ "://".data ++ env.netloc ++ "/wiki/".data ++ ref.dropWhile (fun c => c = '/')

/-- The anchor element appended for a non-image attachment.  The
BeautifulSoup body lookup/synthesis of `__add_attachment_link` is
abstracted to appending the link markup to the stored page content. -/
def attachmentLinkHtml (title url : List Char) : List Char :=
  "<a href=\"".data ++ url ++ "\">".data ++ title ++ "</a>".data

/-- `Exporter.__download_attachment`: `requests.get` with streamed 4MB
chunk writes; a `RequestException` is caught and logged, never raised.
A failure before `open` leaves no file; a mid-stream failure leaves the
chunks already written in the (closed, partial) file.  Every invocation
is recorded in `downloads`. -/
def downloadAttachment (env : Env) (url : List Char) (attPath : FPath)
    (st : ExpState) : ExpState :=
  let st := { st with downloads := st.downloads ++ [url] }
  match env.transport url with
  | .failEarly => { st with log := st.log ++ [.downloadError url] }
  | .stream chunks midFail =>
    let st := { st with fs := fsSet st.fs attPath chunks.flatten,
                        writes := st.writes ++ [attPath] }
    if midFail then { st with log := st.log ++ [.downloadError url] } else st

/-- `Exporter.__add_attachment_link`: reopen the page file and append a
hyperlink to the remote attachment.  A missing page file makes Python's
`open(..., "r+")` raise, modelled as `Err.pageFileMissing`. -/
def addAttachmentLink (pageLoc : FPath) (title url : List Char) (st : ExpState) :
    ExpState × Option Err :=
  match fsGet st.fs pageLoc with
  | none => (st, some .pageFileMissing)
  | some content =>
    ({ st with fs := fsSet st.fs pageLoc (content ++ attachmentLinkHtml title url) }, none)

/-- Body of the attachment loop in `Exporter.__fetch_attachments` for a
single attachment record. -/
def processAtt (env : Env) (pageLoc : FPath) (st : ExpState) (att : Att) :
    ExpState × Option Err :=
  let st := { st with attLog := st.attLog ++ [att.title] }
  let name := sanitize att.title
  let url := mkAttUrl env att.downloadRef
  let attPath := pageLoc.dropLast ++ [attFolderSeg, name]
  if "image/".data.isPrefixOf att.mediaType then
    if fsHas st.fs attPath then
      ({ st with log := st.log ++ [.skipExisting attPath] }, none)
    else
      (downloadAttachment env url attPath st, none)
  else
    addAttachmentLink pageLoc att.title url st

def runAtts (env : Env) (pageLoc : FPath) : ExpState → List Att → ExpState × Option Err
  | st, [] => (st, none)
  | st, a :: rest =>
    match processAtt env pageLoc st a with
    | (st', none) => runAtts env pageLoc st' rest
    | (st', some e) => (st', some e)

/-- `Exporter.__fetch_attachments` (the 500-attachment API page-size
bound is inherited from the listing collaborator). -/
def fetchAttachments (env : Env) (pageId : Nat) (pageLoc : FPath) (st : ExpState) :
    ExpState × Option Err :=
  runAtts env pageLoc st (env.attachments pageId)

/-- The `for child_id in child_ids` recursion of `__dump_page`; an
exception from a child aborts the loop and propagates. -/
def runKids (f : ExpState → Nat → ExpState × Option Err) :
    ExpState → List Nat → ExpState × Option Err
  | st, [] => (st, none)
  | st, c :: rest =>
    match f st c with
    | (st', none) => runKids f st' rest
    | (st', some e) => (st', some e)

/-- `Exporter.__dump_page`.  The fuel argument only bounds the recursion
depth of the model; every claim quantifies over sufficient fuel.  Order
of effects follows the source: seen-check, page fetch, content write,
attachment fetch (unless disabled), seen-insert, child recursion with
`parents = sanitized_parents + [page_title]` where `sanitized_parents`
has already dropped the removable titles. -/
def dumpPage (cfg : Config) (env : Env) :
    Nat → ExpState → Nat → FPath → ExpState × Option Err
  | 0, st, _, _ => (st, some .outOfFuel)
  | fuel + 1, st, srcId, parents =>
    if srcId ∈ st.seen then (st, some .duplicatePage)
    else
      match envLookup env.pages srcId with
      | none => (st, some .missingPage)
      | some page =>
        let content := page.content ++ lastUpdatedDiv page.whenUpdated
        let documentName := if page.childIds.isEmpty then page.title else indexName
        let sanitizedFilename := sanitize documentName ++ htmlExt
        let sanitizedParents :=
          (parents.map sanitize).filter (fun p => !(cfg.removableParents.contains p))
        let pageLocation := sanitizedParents ++ [sanitizedFilename]
        let st1 := { st with fs := fsSet st.fs pageLocation content,
                             writes := st.writes ++ [pageLocation] }
        match (if cfg.noAttach then (st1, none)
               else fetchAttachments env page.id pageLocation st1) with
        | (st2, some e) => (st2, some e)
        | (st2, none) =>
          let st3 := { st2 with seen := st2.seen ++ [page.id] }
          runKids (fun s cid => dumpPage cfg env fuel s cid (sanitizedParents ++ [page.title]))
            st3 page.childIds

/-- `Exporter.__dump_space`: a space without a homepage logs an error
and raises `ExportException("No homepage found")`. -/
def dumpSpace (cfg : Config) (env : Env) (fuel : Nat) (st : ExpState) (sp : SpaceRec) :
    ExpState × Option Err :=
  match sp.homepage with
  | none => ({ st with log := st.log ++ [.noHomepageLog sp.key] }, some .noHomepage)
  | some hid => dumpPage cfg env fuel st hid []

/-- The space loop of `Exporter.dump`; an exception from one space
propagates and aborts the loop (there is no handler around
`__dump_space`). -/
def dumpSpaces (cfg : Config) (env : Env) (fuel : Nat) :
    ExpState → List SpaceRec → ExpState × Option Err
  | st, [] => (st, none)
  | st, sp :: rest =>
    if cfg.space = none ∨ cfg.space = some sp.key then
      match dumpSpace cfg env fuel st sp with
      | (st', none) => dumpSpaces cfg env fuel st' rest
      | (st', some e) => (st', some e)
    else dumpSpaces cfg env fuel st rest

/-- `Exporter.dump`. -/
def dump (cfg : Config) (env : Env) (fuel : Nat) (st : ExpState) :
    ExpState × Option Err :=
  if env.spaces.isEmpty then ({ st with log := st.log ++ [.noSpacesLog] }, none)
  else dumpSpaces cfg env fuel st env.spaces

/-! ### Acyclic page hierarchies

A `PTree` is a page hierarchy in which every page has exactly one
parent and there are no cycles; `pagesOf` flattens it into the page
records the wiki API serves for it, and `preIds` is its preorder id
enumeration (the visit order of the depth-first export). -/

inductive PTree where
  | node (id : Nat) (title content whenUpdated : List Char) (children : List PTree)

def PTree.rootId : PTree → Nat
  | .node i _ _ _ _ => i

mutual
def preIds : PTree → List Nat
  | .node i _ _ _ cs => i :: preIdsL cs
def preIdsL : List PTree → List Nat
  | [] => []
  | t :: ts => preIds t ++ preIdsL ts
end

mutual
def pagesOf : PTree → List Page
  | .node i ti co w cs => ⟨i, ti, co, w, cs.map PTree.rootId⟩ :: pagesOfL cs
def pagesOfL : List PTree → List Page
  | [] => []
  | t :: ts => pagesOf t ++ pagesOfL ts
end

/-- The wiki API collaborator serves exactly the records of the tree. -/
def cohEnv (env : Env) (t : PTree) : Prop :=
  ∀ p ∈ pagesOf t, envLookup env.pages p.id = some p

/-! ### Removable-parent lemmas -/

/-- Directory (non-final) segments of an output path are either not in
the removable list or the fixed attachments folder name. -/
def dirSegsOk (rm : List (List Char)) (p : FPath) : Prop :=
  ∀ s ∈ p.dropLast, s ∉ rm ∨ s = attFolderSeg

/-- Final (filename) segment of an output path. -/
def finalSeg (p : FPath) : Seg := p.getLastD []

/-! ### The markup rewriter (`Converter.__convert_atlassian_html`)

The parsed markup tree is a forest of `Node`s.  Each of the three
rewrite passes is a fresh top-down scan of the current tree, matching
`find_all` over the attached document: a transformed element's subtree
is discarded (its members are no longer attached, so later passes never
see them), while an untouched element's children are scanned in place.
Python exceptions of the passes (`.get` on a text node, joining a
missing filename) are the `Except` error.  -/

inductive Node where
  | text (s : List Char)
  | elem (tag : List Char) (attrs : List (List Char × List Char)) (children : List Node)

def tagAcImage : List Char := "ac:image".data

def tagAcLink : List Char := "ac:link".data

def tagImg : List Char := "img".data

def tagBr : List Char := "br".data

def tagA : List Char := "a".data

def attrRiFilename : List Char := "ri:filename".data

def attrLinkType : List Char := "ac:link-type".data

def attachVal : List Char := "attachment".data

def attrHref : List Char := "href".data

def attrSrc : List Char := "src".data

def attrAlt : List Char := "alt".data

def lookupAttr (attrs : List (List Char × List Char)) (k : List Char) : Option (List Char) :=
  (attrs.find? (fun kv => kv.1 == k)).map (·.2)

/-- `os.path.join(a, b)` for the two-segment joins of the converter:
an absolute second component discards the first. -/
def attJoin (a b : List Char) : List Char :=
  if b.head? = some '/' then b else a ++ "/".data ++ b

def videoExts : List (List Char) :=
  [".mp4".data, ".avi".data, ".mkv".data, ".mov".data,
   ".flv".data, ".wmv".data, ".m4v".data, ".webm".data]

def videoSuffix (h : List Char) : Bool := videoExts.any (fun e => e.isSuffixOf h)

def videoMd (h : List Char) : List Char := "![type:video](".data ++ h ++ ")".data

/-- `for child in image.children: url = child.get("ri:filename", None); break`:
only the first child is consulted; a text first child has no `.get`
(AttributeError). -/
def childUrl : List Node → Except Unit (Option (List Char))
  | [] => .ok none
  | .text _ :: _ => .error ()
  | .elem _ attrs _ :: _ => .ok (lookupAttr attrs attrRiFilename)

def imgNode (src : List Char) : Node := .elem tagImg [(attrSrc, src), (attrAlt, src)] []

def brNode : Node := .elem tagBr [] []

def aNode (href txt : List Char) : Node := .elem tagA [(attrHref, href)] [.text txt]

mutual
def pass1N : Node → Except Unit (List Node)
  | .text s => .ok [.text s]
  | .elem tag attrs cs =>
    if tag = tagAcImage then
      match childUrl cs with
      | .error _ => .error ()
      | .ok none => do
        let cs' ← pass1L cs
        .ok [.elem tag attrs cs']
      | .ok (some f) => .ok [imgNode (attJoin "attachments".data f), brNode]
    else do
      let cs' ← pass1L cs
      .ok [.elem tag attrs cs']
def pass1L : List Node → Except Unit (List Node)
  | [] => .ok []
  | n :: rest => do
    let h ← pass1N n
    let t ← pass1L rest
    .ok (h ++ t)
end

mutual
def pass2N : Node → Except Unit (List Node)
  | .text s => .ok [.text s]
  | .elem tag attrs cs =>
    if tag = tagAcLink ∧ lookupAttr attrs attrLinkType = some attachVal then
      match lookupAttr attrs attrRiFilename with
      | none => .error ()
      | some f => .ok [aNode (attJoin "attachments".data f) f]
    else do
      let cs' ← pass2L cs
      .ok [.elem tag attrs cs']
def pass2L : List Node → Except Unit (List Node)
  | [] => .ok []
  | n :: rest => do
    let h ← pass2N n
    let t ← pass2L rest
    .ok (h ++ t)
end

mutual
def pass3N : Node → List Node
  | .text s => [.text s]
  | .elem tag attrs cs =>
    if tag = tagA ∧ videoSuffix ((lookupAttr attrs attrHref).getD []) = true then
      [.text (videoMd ((lookupAttr attrs attrHref).getD []))]
    else [.elem tag attrs (pass3L cs)]
def pass3L : List Node → List Node
  | [] => []
  | n :: rest => pass3N n ++ pass3L rest
end

/-- The three passes of `__convert_atlassian_html`, in source order. -/
def convertL (doc : List Node) : Except Unit (List Node) := do
  let p1 ← pass1L doc
  let p2 ← pass2L p1
  .ok (pass3L p2)

/-! One-rule-per-element semantics: a single scan in which each element
is rewritten by at most one of the three rules (spec reading of the
rewriter: "no two rules fire on the same element"). -/
mutual
def oneShotN : Node → Except Unit (List Node)
  | .text s => .ok [.text s]
  | .elem tag attrs cs =>
    if tag = tagAcImage then
      match childUrl cs with
      | .error _ => .error ()
      | .ok none => do
        let cs' ← oneShotL cs
        .ok [.elem tag attrs cs']
      | .ok (some f) => .ok [imgNode (attJoin "attachments".data f), brNode]
    else if tag = tagAcLink ∧ lookupAttr attrs attrLinkType = some attachVal then
      match lookupAttr attrs attrRiFilename with
      | none => .error ()
      | some f => .ok [aNode (attJoin "attachments".data f) f]
    else if tag = tagA ∧ videoSuffix ((lookupAttr attrs attrHref).getD []) = true then
      .ok [.text (videoMd ((lookupAttr attrs attrHref).getD []))]
    else do
      let cs' ← oneShotL cs
      .ok [.elem tag attrs cs']
def oneShotL : List Node → Except Unit (List Node)
  | [] => .ok []
  | n :: rest => do
    let h ← oneShotN n
    let t ← oneShotL rest
    .ok (h ++ t)
end

/-! Composite semantics: as `oneShotN`, except that an attachment link
whose constructed target ends in a video extension is rewritten all the
way to the video token (the attachment rule's output immediately
re-matched by the video rule). -/
mutual
def oneShotFusedN : Node → Except Unit (List Node)
  | .text s => .ok [.text s]
  | .elem tag attrs cs =>
    if tag = tagAcImage then
      match childUrl cs with
      | .error _ => .error ()
      | .ok none => do
        let cs' ← oneShotFusedL cs
        .ok [.elem tag attrs cs']
      | .ok (some f) => .ok [imgNode (attJoin "attachments".data f), brNode]
    else if tag = tagAcLink ∧ lookupAttr attrs attrLinkType = some attachVal then
      match lookupAttr attrs attrRiFilename with
      | none => .error ()
      | some f =>
        if videoSuffix (attJoin "attachments".data f) = true then
          .ok [.text (videoMd (attJoin "attachments".data f))]
        else
          .ok [aNode (attJoin "attachments".data f) f]
    else if tag = tagA ∧ videoSuffix ((lookupAttr attrs attrHref).getD []) = true then
      .ok [.text (videoMd ((lookupAttr attrs attrHref).getD []))]
    else do
      let cs' ← oneShotFusedL cs
      .ok [.elem tag attrs cs']
def oneShotFusedL : List Node → Except Unit (List Node)
  | [] => .ok []
  | n :: rest => do
    let h ← oneShotFusedN n
    let t ← oneShotFusedL rest
    .ok (h ++ t)
end

/-! Spec-side reference semantics, following the spec's words for the
embedded-image rule: "extract the referenced filename from the first
descendant carrying it".  `specFirstDescendantFilename` returns the
filename carried by the first descendant (in document order) of an
element with the given children forest. -/
mutual
def specFilenameN : Node → Option (List Char)
  | .text _ => none
  | .elem _ attrs cc =>
    match lookupAttr attrs attrRiFilename with
    | some f => some f
    | none => specFilenameL cc
def specFilenameL : List Node → Option (List Char)
  | [] => none
  | n :: rest =>
    match specFilenameN n with
    | some f => some f
    | none => specFilenameL rest
end

def specFirstDescendantFilename (forest : List Node) : Option (List Char) :=
  specFilenameL forest

def seqConvN (n : Node) : Except Unit (List Node) :=
  pass1N n >>= fun a => pass2L a >>= fun b => .ok (pass3L b)

def seqConvL (l : List Node) : Except Unit (List Node) :=
  pass1L l >>= fun a => pass2L a >>= fun b => .ok (pass3L b)

/-! ### Concrete runs used by the claim analyses -/

def cfgNoAtt : Config := ⟨none, true, []⟩

def envC1 : Env :=
  ⟨[⟨1, "A".data, "ca".data, "w".data, [2, 3]⟩,
    ⟨2, "B".data, "cb".data, "w".data, [4]⟩,
    ⟨3, "C".data, "cc".data, "w".data, [5]⟩,
    ⟨4, "D".data, "cd".data, "w".data, []⟩,
    ⟨5, "E".data, "ce".data, "w".data, []⟩],
   fun _ => [], fun _ => .failEarly, [⟨"S".data, some 1⟩], "https".data, "x".data⟩

def envC2 : Env :=
  ⟨[⟨1, "T".data, "c".data, "w".data, []⟩], fun _ => [], fun _ => .failEarly,
   [⟨"S1".data, none⟩, ⟨"S2".data, some 1⟩], "h".data, "n".data⟩

def envC2b : Env := { envC2 with spaces := [⟨"S2".data, some 1⟩] }

def docC3 : List Node :=
  [.elem tagAcLink [(attrLinkType, attachVal), (attrRiFilename, "clip.mp4".data)] []]

def treeC4 : PTree := .node 1 "A".data "c".data "w".data [.node 2 "B".data "c".data "w".data []]

def envC4 : Env := ⟨pagesOf treeC4, fun _ => [], fun _ => .failEarly, [], "h".data, "n".data⟩

def cfgC6 : Config := ⟨none, true, ["D.html".data]⟩

def envC6 : Env :=
  ⟨[⟨1, "D".data, "c".data, "w".data, []⟩], fun _ => [], fun _ => .failEarly,
   [⟨"S".data, some 1⟩], "h".data, "n".data⟩

def imgC7kids : List Node :=
  [.elem "ri:caption".data [] [],
   .elem "ri:attachment".data [(attrRiFilename, "f.png".data)] []]

def imgC7 : Node := .elem tagAcImage [] imgC7kids

def attW : Att := ⟨"pic.png".data, "dl/p".data, "image/png".data⟩

def envW8 : Env := ⟨[], fun _ => [attW], fun _ => .stream ["ab".data] false, [], "h".data, "n".data⟩

def envW10 : Env := ⟨[], fun _ => [attW], fun _ => .stream ["ab".data] true, [], "h".data, "n".data⟩

def stW9 : ExpState := { st0 with fs := [(["p.html".data], "x".data)] }

def envW9 : Env :=
  ⟨[], fun _ => [attW, ⟨"doc.pdf".data, "dl/d".data, "application/pdf".data⟩],
   fun _ => .failEarly, [], "h".data, "n".data⟩

theorem ddPat_eq : ddPat = ['.', '.'] := rfl

theorem slashPat_eq : slashPat = ['/'] := rfl

theorem usRep_eq : usRep = ['_'] := rfl

theorem hasSub_nil (pat : List Char) : hasSub pat [] = pat.isEmpty := rfl

theorem hasSub_cons (pat : List Char) (c : Char) (rest : List Char) :
    hasSub pat (c :: rest) = (pat.isPrefixOf (c :: rest) || hasSub pat rest) := rfl

theorem pyReplace_nil (pat repl : List Char) : pyReplace pat repl [] = [] := by
  simp [pyReplace]

theorem pyReplace_cons_pos (pat repl : List Char) (c : Char) (rest : List Char)
    (h : pat.isPrefixOf (c :: rest)) :
    pyReplace pat repl (c :: rest) = repl ++ pyReplace pat repl (rest.drop (pat.length - 1)) := by
  rw [pyReplace, if_pos h]

theorem pyReplace_cons_neg (pat repl : List Char) (c : Char) (rest : List Char)
    (h : ¬ pat.isPrefixOf (c :: rest)) :
    pyReplace pat repl (c :: rest) = c :: pyReplace pat repl rest := by
  rw [pyReplace, if_neg h]

theorem isPrefixOf_cons₂ (a : Char) (as : List Char) (b : Char) (bs : List Char) :
    (a :: as).isPrefixOf (b :: bs) = ((a == b) && as.isPrefixOf bs) := rfl

theorem nil_isPrefixOf (l : List Char) : ([] : List Char).isPrefixOf l = true := by
  cases l <;> rfl

theorem isPrefixOf_nil₂ (a : Char) (as : List Char) :
    (a :: as).isPrefixOf ([] : List Char) = false := rfl

/-- Head shape of the ".." replacement: the output can start with '.'
only if the input did. -/
theorem pyReplace_dd_head (l : List Char)
    (h : ['.'].isPrefixOf (pyReplace ['.', '.'] usRep l) = true) :
    ['.'].isPrefixOf l = true := by
  cases l with
  | nil => rw [pyReplace_nil, isPrefixOf_nil₂] at h; exact absurd h (by simp)
  | cons a t =>
    by_cases hp : (['.', '.'] : List Char).isPrefixOf (a :: t)
    · rw [pyReplace_cons_pos _ _ _ _ hp, usRep_eq] at h
      rw [List.singleton_append, isPrefixOf_cons₂] at h
      simp at h
    · rw [pyReplace_cons_neg _ _ _ _ hp, isPrefixOf_cons₂] at h
      rw [isPrefixOf_cons₂]
      simp only [Bool.and_eq_true, beq_iff_eq] at h ⊢
      exact ⟨h.1, nil_isPrefixOf t⟩

/-- After replacing ".." by "_", the result no longer contains "..". -/
theorem hasSub_dd_pyReplace : ∀ l : List Char,
    hasSub ['.', '.'] (pyReplace ['.', '.'] usRep l) = false
  | [] => by rw [pyReplace_nil]; rfl
  | c :: rest => by
    by_cases hp : (['.', '.'] : List Char).isPrefixOf (c :: rest)
    · cases rest with
      | nil => rw [isPrefixOf_cons₂, isPrefixOf_nil₂] at hp; simp at hp
      | cons b t =>
        obtain ⟨hc, hb⟩ : c = '.' ∧ b = '.' := by
          rw [isPrefixOf_cons₂, isPrefixOf_cons₂] at hp
          simp only [Bool.and_eq_true, beq_iff_eq] at hp
          exact ⟨hp.1.symm, hp.2.1.symm⟩
        subst hc; subst hb
        rw [pyReplace_cons_pos _ _ _ _ hp]
        have ih := hasSub_dd_pyReplace t
        show hasSub ['.', '.'] ('_' :: pyReplace ['.', '.'] usRep t) = false
        rw [hasSub_cons, isPrefixOf_cons₂]
        simp [ih]
    · rw [pyReplace_cons_neg _ _ _ _ hp]
      have ih := hasSub_dd_pyReplace rest
      rw [hasSub_cons, isPrefixOf_cons₂]
      simp only [ih, Bool.or_false]
      by_cases hc : c = '.'
      · subst hc
        simp only [beq_self_eq_true, Bool.true_and]
        -- the tail of the output cannot start with '.' either, else the
        -- input tail would, making ".." a prefix of the input
        cases hh : (['.'] : List Char).isPrefixOf (pyReplace ['.', '.'] usRep rest) with
        | false => rfl
        | true =>
          exfalso
          have hr := pyReplace_dd_head rest hh
          apply hp
          rw [isPrefixOf_cons₂]
          simp only [beq_self_eq_true, Bool.true_and]
          exact hr
      · have : ('.' == c) = false := beq_eq_false_iff_ne.mpr (Ne.symm hc)
        simp [this]
termination_by l => l.length
decreasing_by
  · simp only [List.length_cons]; omega
  · simp only [List.length_cons]; omega

/-- Replacing the single-character pattern "/" is a character map. -/
theorem pyReplace_slash_eq_map : ∀ l : List Char,
    pyReplace ['/'] usRep l = l.map (fun c => if c = '/' then '_' else c)
  | [] => by rw [pyReplace_nil]; rfl
  | c :: rest => by
    have ih := pyReplace_slash_eq_map rest
    by_cases hc : c = '/'
    · subst hc
      have hp : (['/'] : List Char).isPrefixOf ('/' :: rest) := by
        rw [isPrefixOf_cons₂]; simp [nil_isPrefixOf]
      rw [pyReplace_cons_pos _ _ _ _ hp]
      show '_' :: pyReplace ['/'] usRep rest = _
      simp [ih]
    · have hp : ¬ (['/'] : List Char).isPrefixOf (c :: rest) := by
        rw [isPrefixOf_cons₂]
        simp [beq_eq_false_iff_ne.mpr (Ne.symm hc)]
      rw [pyReplace_cons_neg _ _ _ _ hp]
      simp [ih, hc]
termination_by l => l.length
decreasing_by
  all_goals simp only [List.length_cons]; omega

/-- `hasSub` for a one-character pattern is list membership. -/
theorem hasSub_singleton (a : Char) : ∀ l : List Char, hasSub [a] l = true ↔ a ∈ l
  | [] => by rw [hasSub_nil]; simp
  | c :: rest => by
    rw [hasSub_cons, isPrefixOf_cons₂, nil_isPrefixOf]
    have ih := hasSub_singleton a rest
    constructor
    · intro h
      rcases Bool.or_eq_true_iff.mp h with h | h
      · simp only [Bool.and_true, beq_iff_eq] at h
        exact h ▸ List.mem_cons_self a rest
      · exact List.mem_cons_of_mem c (ih.mp h)
    · intro h
      rcases List.mem_cons.mp h with h | h
      · subst h; simp
      · rw [ih.mpr h]; simp

/-- After the slash map, no '/' remains. -/
theorem hasSub_slash_map (l : List Char) :
    hasSub ['/'] (l.map (fun c => if c = '/' then '_' else c)) = false := by
  cases hv : hasSub ['/'] (l.map (fun c => if c = '/' then '_' else c)) with
  | false => rfl
  | true =>
    exfalso
    obtain ⟨c, _, hc⟩ := List.mem_map.mp ((hasSub_singleton '/' _).mp hv)
    by_cases h : c = '/'
    · rw [if_pos h] at hc; exact absurd hc (by decide)
    · rw [if_neg h] at hc; exact h hc

/-- The slash map neither creates nor destroys ".." occurrences. -/
theorem hasSub_dd_map : ∀ l : List Char,
    hasSub ['.', '.'] (l.map (fun c => if c = '/' then '_' else c)) = hasSub ['.', '.'] l
  | [] => rfl
  | [c] => by
    have h1 : (['.', '.'] : List Char).isPrefixOf [if c = '/' then '_' else c] = false := by
      rw [isPrefixOf_cons₂, isPrefixOf_nil₂]; simp
    have h2 : (['.', '.'] : List Char).isPrefixOf [c] = false := by
      rw [isPrefixOf_cons₂, isPrefixOf_nil₂]; simp
    rw [List.map_cons, List.map_nil, hasSub_cons, hasSub_cons, hasSub_nil, h1, h2]
  | c :: b :: rest => by
    have ih := hasSub_dd_map (b :: rest)
    rw [List.map_cons, hasSub_cons, hasSub_cons, ih]
    congr 1
    rw [List.map_cons, isPrefixOf_cons₂, isPrefixOf_cons₂, isPrefixOf_cons₂, isPrefixOf_cons₂]
    have h1 : ('.' == (if c = '/' then '_' else c)) = ('.' == c) := by
      by_cases h : c = '/'
      · subst h; decide
      · rw [if_neg h]
    have h2 : ('.' == (if b = '/' then '_' else b)) = ('.' == b) := by
      by_cases h : b = '/'
      · subst h; decide
      · rw [if_neg h]
    rw [h1, h2, nil_isPrefixOf, nil_isPrefixOf]

/-- Characters of the ".." replacement output come from the input or are '_'. -/
theorem mem_pyReplace_dd : ∀ (l : List Char) (c : Char),
    c ∈ pyReplace ['.', '.'] usRep l → c ∈ l ∨ c = '_'
  | [], c => by rw [pyReplace_nil]; intro h; exact absurd h (List.not_mem_nil c)
  | a :: rest, c => by
    by_cases hp : (['.', '.'] : List Char).isPrefixOf (a :: rest)
    · cases rest with
      | nil => rw [isPrefixOf_cons₂, isPrefixOf_nil₂] at hp; simp at hp
      | cons b t =>
        rw [pyReplace_cons_pos _ _ _ _ hp]
        intro h
        rw [show (usRep ++ pyReplace ['.', '.'] usRep ((b :: t).drop (['.', '.'].length - 1)))
          = '_' :: pyReplace ['.', '.'] usRep t from rfl] at h
        rcases List.mem_cons.mp h with h | h
        · exact Or.inr h
        · rcases mem_pyReplace_dd t c h with h | h
          · exact Or.inl (by simp [h])
          · exact Or.inr h
    · rw [pyReplace_cons_neg _ _ _ _ hp]
      intro h
      rcases List.mem_cons.mp h with h | h
      · exact Or.inl (by simp [h])
      · rcases mem_pyReplace_dd rest c h with h | h
        · exact Or.inl (by simp [h])
        · exact Or.inr h
termination_by l => l.length
decreasing_by
  all_goals simp only [List.length_cons]; omega

/-- The ".." replacement cannot introduce a '/'. -/
theorem hasSub_slash_pyReplace_dd (l : List Char) (h : hasSub ['/'] l = false) :
    hasSub ['/'] (pyReplace ['.', '.'] usRep l) = false := by
  cases hv : hasSub ['/'] (pyReplace ['.', '.'] usRep l) with
  | false => rfl
  | true =>
    exfalso
    have hmem := (hasSub_singleton '/' _).mp hv
    rcases mem_pyReplace_dd l '/' hmem with hm | hm
    · rw [(hasSub_singleton '/' l).mpr hm] at h; exact absurd h (by decide)
    · exact absurd hm (by decide)

/-- The sanitized name never contains "..". -/
theorem sanitize_no_dd (t : List Char) : hasSub ddPat (sanitize t) = false := by
  simp only [sanitize, ddPat_eq, slashPat_eq]
  have h1 : hasSub ['.', '.']
      (if hasSub ['.', '.'] t = true then pyReplace ['.', '.'] usRep t else t) = false := by
    by_cases h : hasSub ['.', '.'] t = true
    · rw [if_pos h]; exact hasSub_dd_pyReplace t
    · rw [if_neg h]
      cases hv : hasSub ['.', '.'] t with
      | false => rfl
      | true => exact absurd hv h
  by_cases h2 : hasSub ['/']
      (if hasSub ['.', '.'] t = true then pyReplace ['.', '.'] usRep t else t) = true
  · rw [if_pos h2, pyReplace_slash_eq_map, hasSub_dd_map]
    exact h1
  · rw [if_neg h2]; exact h1

/-- The sanitized name never contains "/". -/
theorem sanitize_no_slash (t : List Char) : hasSub slashPat (sanitize t) = false := by
  simp only [sanitize, ddPat_eq, slashPat_eq]
  by_cases h2 : hasSub ['/']
      (if hasSub ['.', '.'] t = true then pyReplace ['.', '.'] usRep t else t) = true
  · rw [if_pos h2, pyReplace_slash_eq_map, hasSub_slash_map]
  · rw [if_neg h2]
    cases hv : hasSub ['/']
        (if hasSub ['.', '.'] t = true then pyReplace ['.', '.'] usRep t else t) with
    | false => rfl
    | true => exact absurd hv h2

/-- Sanitizing a clean title is the identity. -/
theorem sanitize_clean (t : List Char) (h1 : hasSub ddPat t = false)
    (h2 : hasSub slashPat t = false) : sanitize t = t := by
  simp [sanitize, h1, h2]

/-- The sanitizer is idempotent. -/
theorem sanitize_idem (t : List Char) : sanitize (sanitize t) = sanitize t :=
  sanitize_clean (sanitize t) (sanitize_no_dd t) (sanitize_no_slash t)

/-! ### Filesystem and attachment-loop lemmas -/

theorem fsGet_fsSet_eq (fs : List (FPath × List Char)) (p : FPath) (c : List Char) :
    fsGet (fsSet fs p c) p = some c := by
  simp [fsGet, fsSet, List.find?_cons]

theorem fsHas_fsSet (fs : List (FPath × List Char)) (p q : FPath) (c : List Char)
    (h : fsHas fs q = true) : fsHas (fsSet fs p c) q = true := by
  by_cases hpq : p = q
  · subst hpq; simp [fsHas, fsGet_fsSet_eq]
  · simp only [fsHas, fsGet, fsSet, List.find?_cons] at h ⊢
    rw [show (p == q) = false from beq_eq_false_iff_ne.mpr hpq]
    exact h

/-- One attachment record never raises when the page file exists; it
leaves the visited set alone, keeps the page file in place, appends the
attachment to the processing trace, and only ever writes inside the
page's `attachments` folder. -/
theorem processAtt_ok (env : Env) (loc : FPath) (st : ExpState) (a : Att)
    (h : fsHas st.fs loc = true) :
    ∃ st', processAtt env loc st a = (st', none) ∧
      st'.seen = st.seen ∧ fsHas st'.fs loc = true ∧
      st'.attLog = st.attLog ++ [a.title] ∧
      (∀ p ∈ st'.writes, p ∈ st.writes ∨ ∃ nm, p = loc.dropLast ++ [attFolderSeg, nm]) := by
  simp only [processAtt]
  by_cases him : ("image/".data.isPrefixOf a.mediaType) = true
  · rw [if_pos him]
    by_cases hex : fsHas st.fs (loc.dropLast ++ [attFolderSeg, sanitize a.title]) = true
    · rw [if_pos hex]
      refine ⟨_, rfl, rfl, h, rfl, ?_⟩
      intro p hp
      exact Or.inl hp
    · rw [if_neg hex]
      refine ⟨_, rfl, ?_⟩
      simp only [downloadAttachment]
      cases env.transport (mkAttUrl env a.downloadRef) with
      | failEarly =>
        refine ⟨rfl, h, rfl, ?_⟩
        intro p hp
        exact Or.inl hp
      | stream chunks midFail =>
        cases midFail with
        | false =>
          refine ⟨rfl, fsHas_fsSet _ _ _ _ h, rfl, ?_⟩
          intro p hp
          rcases List.mem_append.mp hp with hp | hp
          · exact Or.inl hp
          · exact Or.inr ⟨sanitize a.title, by simpa using hp⟩
        | true =>
          refine ⟨rfl, fsHas_fsSet _ _ _ _ h, rfl, ?_⟩
          intro p hp
          rcases List.mem_append.mp hp with hp | hp
          · exact Or.inl hp
          · exact Or.inr ⟨sanitize a.title, by simpa using hp⟩
  · rw [if_neg him]
    simp only [addAttachmentLink]
    rcases hg : fsGet st.fs loc with _ | content
    · exact absurd (by simp [fsHas, hg] : fsHas st.fs loc = false) (by simp [h])
    · refine ⟨_, rfl, rfl, fsHas_fsSet _ _ _ _ h, rfl, ?_⟩
      intro p hp
      exact Or.inl hp

/-- The attachment loop never raises when the page file exists: every
attachment in the listing is processed (in order), the visited set is
untouched, and all new writes land in the page's `attachments` folder. -/
theorem runAtts_ok (env : Env) (loc : FPath) : ∀ (atts : List Att) (st : ExpState),
    fsHas st.fs loc = true →
    ∃ st', runAtts env loc st atts = (st', none) ∧
      st'.seen = st.seen ∧ fsHas st'.fs loc = true ∧
      st'.attLog = st.attLog ++ atts.map (·.title) ∧
      (∀ p ∈ st'.writes, p ∈ st.writes ∨ ∃ nm, p = loc.dropLast ++ [attFolderSeg, nm])
  | [], st, h => ⟨st, rfl, rfl, h, by simp, fun p hp => Or.inl hp⟩
  | a :: rest, st, h => by
    obtain ⟨st1, heq, hseen, hhas, hlog, hw⟩ := processAtt_ok env loc st a h
    obtain ⟨st2, heq2, hseen2, hhas2, hlog2, hw2⟩ := runAtts_ok env loc rest st1 hhas
    refine ⟨st2, ?_, ?_, hhas2, ?_, ?_⟩
    · rw [runAtts, heq]; exact heq2
    · rw [hseen2, hseen]
    · rw [hlog2, hlog]; simp
    · intro p hp
      rcases hw2 p hp with hp | hp
      · exact hw p hp
      · exact Or.inr hp

theorem fetchAttachments_ok (env : Env) (pid : Nat) (loc : FPath) (st : ExpState)
    (h : fsHas st.fs loc = true) :
    ∃ st', fetchAttachments env pid loc st = (st', none) ∧
      st'.seen = st.seen ∧ fsHas st'.fs loc = true ∧
      st'.attLog = st.attLog ++ (env.attachments pid).map (·.title) ∧
      (∀ p ∈ st'.writes, p ∈ st.writes ∨ ∃ nm, p = loc.dropLast ++ [attFolderSeg, nm]) :=
  runAtts_ok env loc (env.attachments pid) st h

theorem pagesOfL_mem (cs : List PTree) (c : PTree) (hc : c ∈ cs) :
    ∀ p ∈ pagesOf c, p ∈ pagesOfL cs := by
  induction cs with
  | nil => exact absurd hc (List.not_mem_nil c)
  | cons d ds ih =>
    intro p hp
    rw [pagesOfL]
    rcases List.mem_cons.mp hc with h | h
    · subst h; exact List.mem_append_left _ hp
    · exact List.mem_append_right _ (ih h p hp)

theorem cohEnv_child (env : Env) (i : Nat) (ti co w : List Char) (cs : List PTree)
    (h : cohEnv env (.node i ti co w cs)) (c : PTree) (hc : c ∈ cs) : cohEnv env c := by
  intro p hp
  apply h
  rw [pagesOf]
  exact List.mem_cons_of_mem _ (pagesOfL_mem cs c hc p hp)

theorem preIds_length_pos (t : PTree) : 0 < (preIds t).length := by
  cases t; rw [preIds]; simp

theorem preIdsL_length_le (cs : List PTree) (c : PTree) (hc : c ∈ cs) :
    (preIds c).length ≤ (preIdsL cs).length := by
  induction cs with
  | nil => exact absurd hc (List.not_mem_nil c)
  | cons d ds ih =>
    rw [preIdsL]
    rcases List.mem_cons.mp hc with h | h
    · subst h; simp
    · calc (preIds c).length ≤ (preIdsL ds).length := ih h
        _ ≤ _ := by simp

/-- The child loop on a forest of disjoint, fully served subtrees
succeeds and appends exactly the forest's preorder ids to the visited
set, provided each single subtree does so. -/
theorem runKids_tree (cfg : Config) (env : Env) (fuel : Nat)
    (hdp : ∀ (t : PTree) (st : ExpState) (parents : FPath), cohEnv env t →
      (preIds t).Nodup → (∀ i ∈ preIds t, i ∉ st.seen) → (preIds t).length ≤ fuel →
      ∃ st', dumpPage cfg env fuel st t.rootId parents = (st', none) ∧
        st'.seen = st.seen ++ preIds t) :
    ∀ (cs : List PTree) (st : ExpState) (parents : FPath),
    (∀ c ∈ cs, cohEnv env c) → (preIdsL cs).Nodup →
    (∀ i ∈ preIdsL cs, i ∉ st.seen) → (∀ c ∈ cs, (preIds c).length ≤ fuel) →
    ∃ st', runKids (fun s cid => dumpPage cfg env fuel s cid parents) st
        (cs.map PTree.rootId) = (st', none) ∧
      st'.seen = st.seen ++ preIdsL cs := by
  intro cs
  induction cs with
  | nil =>
    intro st parents _ _ _ _
    exact ⟨st, rfl, by rw [preIdsL]; simp⟩
  | cons c cs' ih =>
    intro st parents hcoh hnd hdis hsz
    rw [preIdsL] at hnd hdis
    obtain ⟨hnd1, hnd2, hdisj⟩ := List.nodup_append.mp hnd
    obtain ⟨st1, heq1, hseen1⟩ := hdp c st parents (hcoh c (by simp)) hnd1
      (fun i hi => hdis i (List.mem_append_left _ hi)) (hsz c (by simp))
    obtain ⟨st2, heq2, hseen2⟩ := ih st1 parents
      (fun d hd => hcoh d (List.mem_cons_of_mem _ hd)) hnd2
      (by
        intro i hi
        rw [hseen1]
        intro hmem
        rcases List.mem_append.mp hmem with h | h
        · exact hdis i (List.mem_append_right _ hi) h
        · exact hdisj h hi)
      (fun d hd => hsz d (List.mem_cons_of_mem _ hd))
    refine ⟨st2, ?_, ?_⟩
    · rw [List.map_cons, runKids, heq1]
      exact heq2
    · rw [hseen2, hseen1, preIdsL, List.append_assoc]

theorem fsHas_fsSet_self (fs : List (FPath × List Char)) (p : FPath) (c : List Char) :
    fsHas (fsSet fs p c) p = true := by
  simp [fsHas, fsGet_fsSet_eq]

/-- Depth-first export of an acyclic hierarchy whose ids are fresh and
duplicate-free: the run succeeds and visits exactly the preorder ids,
appending them to the visited set in order. -/
theorem dumpPage_tree (cfg : Config) (env : Env) : ∀ (fuel : Nat) (t : PTree)
    (st : ExpState) (parents : FPath), cohEnv env t → (preIds t).Nodup →
    (∀ i ∈ preIds t, i ∉ st.seen) → (preIds t).length ≤ fuel →
    ∃ st', dumpPage cfg env fuel st t.rootId parents = (st', none) ∧
      st'.seen = st.seen ++ preIds t := by
  intro fuel
  induction fuel with
  | zero =>
    intro t st parents _ _ _ hsz
    exact absurd (Nat.lt_of_lt_of_le (preIds_length_pos t) hsz) (by omega)
  | succ fuel ihf =>
    rintro ⟨i, ti, co, w, cs⟩ st parents hcoh hnd hdis hsz
    have hroot : envLookup env.pages i = some ⟨i, ti, co, w, cs.map PTree.rootId⟩ :=
      hcoh ⟨i, ti, co, w, cs.map PTree.rootId⟩ (by rw [pagesOf]; exact List.mem_cons_self _ _)
    rw [preIds] at hnd hdis hsz
    have hni : i ∉ st.seen := hdis i (List.mem_cons_self _ _)
    obtain ⟨hnihd, hnd2⟩ := List.nodup_cons.mp hnd
    show ∃ st', dumpPage cfg env (fuel + 1) st i parents = (st', none) ∧
      st'.seen = st.seen ++ (i :: preIdsL cs)
    simp only [dumpPage]
    rw [if_neg hni, hroot]
    simp only []
    set loc := List.filter (fun p => !cfg.removableParents.contains p) (List.map sanitize parents) ++
      [sanitize (if (List.map PTree.rootId cs).isEmpty = true then ti else indexName) ++ htmlExt]
      with hloc
    set st1 : ExpState := ⟨st.seen, fsSet st.fs loc (co ++ lastUpdatedDiv w), st.writes ++ [loc], st.downloads, st.attLog, st.log⟩ with hst1
    have hfetch : ∃ st2, (if cfg.noAttach = true then (st1, none)
        else fetchAttachments env i loc st1) = (st2, none) ∧ st2.seen = st.seen := by
      by_cases hna : cfg.noAttach = true
      · rw [if_pos hna]; exact ⟨st1, rfl, rfl⟩
      · rw [if_neg hna]
        obtain ⟨st2, he, hs, _, _, _⟩ := fetchAttachments_ok env i loc st1
          (by rw [hst1]; exact fsHas_fsSet_self _ _ _)
        exact ⟨st2, he, by rw [hs]⟩
    obtain ⟨st2, hfe, hfs⟩ := hfetch
    rw [hfe]
    obtain ⟨st', hrk, hrs⟩ := runKids_tree cfg env fuel ihf cs
      { seen := st2.seen ++ [i], fs := st2.fs, writes := st2.writes,
        downloads := st2.downloads, attLog := st2.attLog, log := st2.log }
      (List.filter (fun p => !cfg.removableParents.contains p) (List.map sanitize parents) ++ [ti])
      (cohEnv_child env i ti co w cs hcoh) hnd2
      (by
        intro j hj
        simp only [hfs]
        intro hmem
        rcases List.mem_append.mp hmem with h | h
        · exact hdis j (List.mem_cons_of_mem _ hj) h
        · rw [List.mem_singleton] at h
          subst h
          exact hnihd hj)
      (by
        intro c hc
        have h1 := preIdsL_length_le cs c hc
        simp only [List.length_cons] at hsz
        omega)
    exact ⟨st', hrk, by simp only [hrs, hfs]; simp⟩

theorem contains_false_not_mem (l : List (List Char)) (a : List Char)
    (h : l.contains a = false) : a ∉ l := by
  intro hm
  have hc : l.contains a = true := List.elem_iff.mpr hm
  rw [hc] at h
  cases h

theorem runKids_writes_inv (P : FPath → Prop) (f : ExpState → Nat → ExpState × Option Err)
    (hf : ∀ st cid, (∀ p ∈ st.writes, P p) → ∀ p ∈ (f st cid).1.writes, P p) :
    ∀ (ids : List Nat) (st : ExpState), (∀ p ∈ st.writes, P p) →
    ∀ p ∈ (runKids f st ids).1.writes, P p
  | [], st, h => h
  | c :: rest, st, h => by
    have h1 := hf st c h
    rcases hres : f st c with ⟨st', e⟩
    rw [hres] at h1
    cases e with
    | none =>
      rw [runKids, hres]
      exact runKids_writes_inv P f hf rest st' h1
    | some e =>
      rw [runKids, hres]
      exact h1

/-- Every file the export writes has removable-free directory segments,
except for the literal attachments folder segment. -/
theorem dumpPage_writes_dirs (cfg : Config) (env : Env) : ∀ (fuel : Nat) (st : ExpState)
    (srcId : Nat) (parents : FPath),
    (∀ p ∈ st.writes, dirSegsOk cfg.removableParents p) →
    ∀ p ∈ (dumpPage cfg env fuel st srcId parents).1.writes, dirSegsOk cfg.removableParents p := by
  intro fuel
  induction fuel with
  | zero => intro st srcId parents h; exact h
  | succ fuel ihf =>
    intro st srcId parents h
    by_cases hseen : srcId ∈ st.seen
    · simp only [dumpPage]
      rw [if_pos hseen]
      exact h
    · simp only [dumpPage]
      rw [if_neg hseen]
      rcases hlk : envLookup env.pages srcId with _ | page
      · exact h
      · simp only []
        set fname := sanitize (if page.childIds.isEmpty = true then page.title else indexName) ++
          htmlExt with hfname
        set sp := List.filter (fun p => !cfg.removableParents.contains p)
          (List.map sanitize parents) with hsp
        have hspok : ∀ s ∈ sp, s ∉ cfg.removableParents := by
          intro s hs
          rw [hsp] at hs
          have := List.of_mem_filter hs
          exact contains_false_not_mem _ _ (by simpa using this)
        set st1 : ExpState := ⟨st.seen, fsSet st.fs (sp ++ [fname]) (page.content ++ lastUpdatedDiv page.whenUpdated), st.writes ++ [sp ++ [fname]], st.downloads, st.attLog, st.log⟩ with hst1
        have h1 : ∀ p ∈ st1.writes, dirSegsOk cfg.removableParents p := by
          rw [hst1]
          intro p hp
          rcases List.mem_append.mp hp with hp | hp
          · exact h p hp
          · rw [List.mem_singleton] at hp
            subst hp
            intro s hs
            rw [List.dropLast_concat] at hs
            exact Or.inl (hspok s hs)
        have hfetch : ∃ st2, (if cfg.noAttach = true then (st1, none)
            else fetchAttachments env page.id (sp ++ [fname]) st1) = (st2, none) ∧
            ∀ p ∈ st2.writes, dirSegsOk cfg.removableParents p := by
          by_cases hna : cfg.noAttach = true
          · rw [if_pos hna]; exact ⟨st1, rfl, h1⟩
          · rw [if_neg hna]
            obtain ⟨st2, he, _, _, _, hw⟩ := fetchAttachments_ok env page.id (sp ++ [fname]) st1
              (by rw [hst1]; exact fsHas_fsSet_self _ _ _)
            refine ⟨st2, he, ?_⟩
            intro p hp
            rcases hw p hp with hp | hp
            · exact h1 p hp
            · obtain ⟨nm, hnm⟩ := hp
              subst hnm
              intro s hs
              rw [show ((sp ++ [fname]).dropLast ++ [attFolderSeg, nm])
                  = (((sp ++ [fname]).dropLast ++ [attFolderSeg]) ++ [nm]) from by simp,
                List.dropLast_concat, List.dropLast_concat] at hs
              rcases List.mem_append.mp hs with hs | hs
              · exact Or.inl (hspok s hs)
              · rw [List.mem_singleton] at hs
                exact Or.inr hs
        obtain ⟨st2, hfe, h2⟩ := hfetch
        rw [hfe]
        exact runKids_writes_inv _ _ (fun s cid hw => ihf s cid _ hw) page.childIds
          ⟨st2.seen ++ [page.id], st2.fs, st2.writes, st2.downloads, st2.attLog, st2.log⟩ h2

theorem finalSeg_concat (xs : FPath) (a : Seg) : finalSeg (xs ++ [a]) = a := by
  simp [finalSeg]

/-- Lockstep child loops: if the per-child runs agree on the visited
set, the raised exception and (under the given switch) the filename
trace, so do the loops. -/
theorem runKids_pair (f g : ExpState → Nat → ExpState × Option Err) (b : Bool)
    (hfg : ∀ s1 s2 c, s1.seen = s2.seen →
      (b = true → s1.writes.map finalSeg = s2.writes.map finalSeg) →
      (f s1 c).1.seen = (g s2 c).1.seen ∧ (f s1 c).2 = (g s2 c).2 ∧
      (b = true → (f s1 c).1.writes.map finalSeg = (g s2 c).1.writes.map finalSeg)) :
    ∀ (ids : List Nat) (s1 s2 : ExpState), s1.seen = s2.seen →
    (b = true → s1.writes.map finalSeg = s2.writes.map finalSeg) →
    (runKids f s1 ids).1.seen = (runKids g s2 ids).1.seen ∧
    (runKids f s1 ids).2 = (runKids g s2 ids).2 ∧
    (b = true → (runKids f s1 ids).1.writes.map finalSeg
      = (runKids g s2 ids).1.writes.map finalSeg)
  | [], s1, s2, hseen, hw => ⟨hseen, rfl, hw⟩
  | c :: rest, s1, s2, hseen, hw => by
    obtain ⟨h1, h2, h3⟩ := hfg s1 s2 c hseen hw
    rcases hf : f s1 c with ⟨a1, e1⟩
    rcases hg : g s2 c with ⟨a2, e2⟩
    rw [hf, hg] at h1 h2 h3
    simp only [] at h1 h2 h3
    subst h2
    cases e1 with
    | none =>
      rw [runKids, hf, runKids, hg]
      exact runKids_pair f g b hfg rest a1 a2 h1 h3
    | some e =>
      rw [runKids, hf, runKids, hg]
      exact ⟨h1, rfl, h3⟩

/-- The traversal (visit order and raised exception) of `__dump_page`
is independent of the removable-parent configuration and of the parent
chain passed down; with attachment fetching disabled the filename trace
of the writes is also independent of them. -/
theorem dumpPage_indep (env : Env) : ∀ (fuel : Nat) (cfg1 cfg2 : Config)
    (s1 s2 : ExpState) (srcId : Nat) (p1 p2 : FPath),
    cfg1.noAttach = cfg2.noAttach → s1.seen = s2.seen →
    (cfg1.noAttach = true → s1.writes.map finalSeg = s2.writes.map finalSeg) →
    (dumpPage cfg1 env fuel s1 srcId p1).1.seen = (dumpPage cfg2 env fuel s2 srcId p2).1.seen ∧
    (dumpPage cfg1 env fuel s1 srcId p1).2 = (dumpPage cfg2 env fuel s2 srcId p2).2 ∧
    (cfg1.noAttach = true → (dumpPage cfg1 env fuel s1 srcId p1).1.writes.map finalSeg
      = (dumpPage cfg2 env fuel s2 srcId p2).1.writes.map finalSeg) := by
  intro fuel
  induction fuel with
  | zero => intro cfg1 cfg2 s1 s2 srcId p1 p2 hna hseen hw; exact ⟨hseen, rfl, hw⟩
  | succ fuel ihf =>
    intro cfg1 cfg2 s1 s2 srcId p1 p2 hna hseen hw
    by_cases hs : srcId ∈ s1.seen
    · have hs2 : srcId ∈ s2.seen := hseen ▸ hs
      simp only [dumpPage]
      rw [if_pos hs, if_pos hs2]
      exact ⟨hseen, rfl, hw⟩
    · have hs2 : srcId ∉ s2.seen := hseen ▸ hs
      simp only [dumpPage]
      rw [if_neg hs, if_neg hs2]
      rcases hlk : envLookup env.pages srcId with _ | page
      · exact ⟨hseen, rfl, hw⟩
      · simp only []
        set fname := sanitize (if page.childIds.isEmpty = true then page.title else indexName) ++
          htmlExt with hfname
        set sp1 := List.filter (fun p => !cfg1.removableParents.contains p)
          (List.map sanitize p1) with hsp1
        set sp2 := List.filter (fun p => !cfg2.removableParents.contains p)
          (List.map sanitize p2) with hsp2
        set t1 : ExpState := ⟨s1.seen, fsSet s1.fs (sp1 ++ [fname]) (page.content ++ lastUpdatedDiv page.whenUpdated), s1.writes ++ [sp1 ++ [fname]], s1.downloads, s1.attLog, s1.log⟩ with ht1
        set t2 : ExpState := ⟨s2.seen, fsSet s2.fs (sp2 ++ [fname]) (page.content ++ lastUpdatedDiv page.whenUpdated), s2.writes ++ [sp2 ++ [fname]], s2.downloads, s2.attLog, s2.log⟩ with ht2
        have hw1 : cfg1.noAttach = true →
            t1.writes.map finalSeg = t2.writes.map finalSeg := by
          intro hb
          rw [ht1, ht2]
          simp only [List.map_append, List.map_cons, List.map_nil, hw hb]
          rw [finalSeg_concat, finalSeg_concat]
        have hfetch : ∃ u1 u2,
            (if cfg1.noAttach = true then (t1, none)
              else fetchAttachments env page.id (sp1 ++ [fname]) t1) = (u1, none) ∧
            (if cfg2.noAttach = true then (t2, none)
              else fetchAttachments env page.id (sp2 ++ [fname]) t2) = (u2, none) ∧
            u1.seen = s1.seen ∧ u2.seen = s2.seen ∧
            (cfg1.noAttach = true → u1.writes.map finalSeg = u2.writes.map finalSeg) := by
          by_cases hb : cfg1.noAttach = true
          · rw [if_pos hb, if_pos (hna ▸ hb)]
            exact ⟨t1, t2, rfl, rfl, rfl, rfl, hw1⟩
          · rw [if_neg hb, if_neg (hna ▸ hb)]
            obtain ⟨u1, he1, hseen1, _, _, _⟩ := fetchAttachments_ok env page.id (sp1 ++ [fname]) t1
              (by rw [ht1]; exact fsHas_fsSet_self _ _ _)
            obtain ⟨u2, he2, hseen2, _, _, _⟩ := fetchAttachments_ok env page.id (sp2 ++ [fname]) t2
              (by rw [ht2]; exact fsHas_fsSet_self _ _ _)
            exact ⟨u1, u2, he1, he2, by rw [hseen1], by rw [hseen2],
              fun hb' => absurd hb' hb⟩
        obtain ⟨u1, u2, he1, he2, hu1, hu2, huw⟩ := hfetch
        rw [he1, he2]
        exact runKids_pair _ _ cfg1.noAttach
          (fun a1 a2 c ha haw => ihf cfg1 cfg2 a1 a2 c _ _ hna ha haw)
          page.childIds
          ⟨u1.seen ++ [page.id], u1.fs, u1.writes, u1.downloads, u1.attLog, u1.log⟩
          ⟨u2.seen ++ [page.id], u2.fs, u2.writes, u2.downloads, u2.attLog, u2.log⟩
          (by simp only []; rw [hu1, hu2, hseen]) huw

/-! ### Sequential passes versus one-shot rewriting -/

theorem ok_bind {ε α β : Type} (a : α) (f : α → Except ε β) :
    (Except.ok a >>= f : Except ε β) = f a := rfl

theorem error_bind {ε α β : Type} (e : ε) (f : α → Except ε β) :
    ((Except.error e : Except ε α) >>= f : Except ε β) = .error e := rfl

theorem pass1L_cons (n : Node) (rest : List Node) :
    pass1L (n :: rest) = (pass1N n >>= fun h => pass1L rest >>= fun t => .ok (h ++ t)) := rfl

theorem pass2L_cons (n : Node) (rest : List Node) :
    pass2L (n :: rest) = (pass2N n >>= fun h => pass2L rest >>= fun t => .ok (h ++ t)) := rfl

theorem pass3L_cons (n : Node) (rest : List Node) :
    pass3L (n :: rest) = pass3N n ++ pass3L rest := rfl

theorem oneShotFusedL_cons (n : Node) (rest : List Node) :
    oneShotFusedL (n :: rest) =
      (oneShotFusedN n >>= fun h => oneShotFusedL rest >>= fun t => .ok (h ++ t)) := rfl

theorem pass1N_elem (tag : List Char) (attrs : List (List Char × List Char))
    (cs : List Node) : pass1N (.elem tag attrs cs) =
    if tag = tagAcImage then
      match childUrl cs with
      | .error _ => .error ()
      | .ok none => pass1L cs >>= fun cs' => .ok [.elem tag attrs cs']
      | .ok (some f) => .ok [imgNode (attJoin "attachments".data f), brNode]
    else pass1L cs >>= fun cs' => .ok [.elem tag attrs cs'] := rfl

theorem pass2N_elem (tag : List Char) (attrs : List (List Char × List Char))
    (cs : List Node) : pass2N (.elem tag attrs cs) =
    if tag = tagAcLink ∧ lookupAttr attrs attrLinkType = some attachVal then
      match lookupAttr attrs attrRiFilename with
      | none => .error ()
      | some f => .ok [aNode (attJoin "attachments".data f) f]
    else pass2L cs >>= fun cs' => .ok [.elem tag attrs cs'] := rfl

theorem pass3N_elem (tag : List Char) (attrs : List (List Char × List Char))
    (cs : List Node) : pass3N (.elem tag attrs cs) =
    if tag = tagA ∧ videoSuffix ((lookupAttr attrs attrHref).getD []) = true then
      [.text (videoMd ((lookupAttr attrs attrHref).getD []))]
    else [.elem tag attrs (pass3L cs)] := rfl

theorem oneShotFusedN_elem (tag : List Char) (attrs : List (List Char × List Char))
    (cs : List Node) : oneShotFusedN (.elem tag attrs cs) =
    if tag = tagAcImage then
      match childUrl cs with
      | .error _ => .error ()
      | .ok none => oneShotFusedL cs >>= fun cs' => .ok [.elem tag attrs cs']
      | .ok (some f) => .ok [imgNode (attJoin "attachments".data f), brNode]
    else if tag = tagAcLink ∧ lookupAttr attrs attrLinkType = some attachVal then
      match lookupAttr attrs attrRiFilename with
      | none => .error ()
      | some f =>
        if videoSuffix (attJoin "attachments".data f) = true then
          .ok [.text (videoMd (attJoin "attachments".data f))]
        else
          .ok [aNode (attJoin "attachments".data f) f]
    else if tag = tagA ∧ videoSuffix ((lookupAttr attrs attrHref).getD []) = true then
      .ok [.text (videoMd ((lookupAttr attrs attrHref).getD []))]
    else oneShotFusedL cs >>= fun cs' => .ok [.elem tag attrs cs'] := rfl

theorem pass2L_append : ∀ a b : List Node,
    pass2L (a ++ b) = (pass2L a >>= fun x => pass2L b >>= fun y => .ok (x ++ y))
  | [], b => by
    show pass2L b = (Except.ok [] >>= fun x => pass2L b >>= fun y => .ok (x ++ y))
    rw [ok_bind]
    cases hb : pass2L b with
    | error e => rfl
    | ok v => rw [ok_bind]; simp
  | n :: rest, b => by
    rw [List.cons_append, pass2L_cons, pass2L_cons, pass2L_append rest b]
    cases hn : pass2N n <;> cases hr : pass2L rest <;> cases hb : pass2L b <;>
      simp only [ok_bind, error_bind, List.append_assoc]

theorem pass3L_append : ∀ a b : List Node, pass3L (a ++ b) = pass3L a ++ pass3L b
  | [], b => rfl
  | n :: rest, b => by
    rw [List.cons_append, pass3L_cons, pass3L_cons, pass3L_append rest b, List.append_assoc]

theorem pass2L_single (n : Node) : pass2L [n] = pass2N n := by
  rw [pass2L_cons]
  cases hn : pass2N n <;> simp only [ok_bind, error_bind]
  show (Except.ok [] >>= fun t => Except.ok (_ ++ t)) = _
  rw [ok_bind]
  simp

theorem pass3L_single (n : Node) : pass3L [n] = pass3N n := by
  rw [pass3L_cons]
  show pass3N n ++ [] = pass3N n
  simp

theorem convertL_eq_seqConvL (doc : List Node) : convertL doc = seqConvL doc := rfl

theorem pass1N_img_err (tag : List Char) (attrs : List (List Char × List Char))
    (cs : List Node) (h1 : tag = tagAcImage) (hcu : childUrl cs = .error ()) :
    pass1N (.elem tag attrs cs) = .error () := by
  rw [pass1N_elem, if_pos h1, hcu]

theorem pass1N_img_none (tag : List Char) (attrs : List (List Char × List Char))
    (cs : List Node) (h1 : tag = tagAcImage) (hcu : childUrl cs = .ok none) :
    pass1N (.elem tag attrs cs) = (pass1L cs >>= fun cs' => .ok [.elem tag attrs cs']) := by
  rw [pass1N_elem, if_pos h1, hcu]

theorem pass1N_img_some (tag : List Char) (attrs : List (List Char × List Char))
    (cs : List Node) (f : List Char) (h1 : tag = tagAcImage)
    (hcu : childUrl cs = .ok (some f)) :
    pass1N (.elem tag attrs cs) = .ok [imgNode (attJoin "attachments".data f), brNode] := by
  rw [pass1N_elem, if_pos h1, hcu]

theorem pass1N_not_img (tag : List Char) (attrs : List (List Char × List Char))
    (cs : List Node) (h1 : ¬ tag = tagAcImage) :
    pass1N (.elem tag attrs cs) = (pass1L cs >>= fun cs' => .ok [.elem tag attrs cs']) := by
  rw [pass1N_elem, if_neg h1]

theorem pass2N_att_none (tag : List Char) (attrs : List (List Char × List Char))
    (cs : List Node) (h2 : tag = tagAcLink ∧ lookupAttr attrs attrLinkType = some attachVal)
    (hf : lookupAttr attrs attrRiFilename = none) :
    pass2N (.elem tag attrs cs) = .error () := by
  rw [pass2N_elem, if_pos h2, hf]

theorem pass2N_att_some (tag : List Char) (attrs : List (List Char × List Char))
    (cs : List Node) (f : List Char)
    (h2 : tag = tagAcLink ∧ lookupAttr attrs attrLinkType = some attachVal)
    (hf : lookupAttr attrs attrRiFilename = some f) :
    pass2N (.elem tag attrs cs) = .ok [aNode (attJoin "attachments".data f) f] := by
  rw [pass2N_elem, if_pos h2, hf]

theorem pass2N_not_att (tag : List Char) (attrs : List (List Char × List Char))
    (cs : List Node)
    (h2 : ¬ (tag = tagAcLink ∧ lookupAttr attrs attrLinkType = some attachVal)) :
    pass2N (.elem tag attrs cs) = (pass2L cs >>= fun cs' => .ok [.elem tag attrs cs']) := by
  rw [pass2N_elem, if_neg h2]

theorem pass3N_video (tag : List Char) (attrs : List (List Char × List Char))
    (cs : List Node)
    (h3 : tag = tagA ∧ videoSuffix ((lookupAttr attrs attrHref).getD []) = true) :
    pass3N (.elem tag attrs cs) = [.text (videoMd ((lookupAttr attrs attrHref).getD []))] := by
  rw [pass3N_elem, if_pos h3]

theorem pass3N_not_video (tag : List Char) (attrs : List (List Char × List Char))
    (cs : List Node)
    (h3 : ¬ (tag = tagA ∧ videoSuffix ((lookupAttr attrs attrHref).getD []) = true)) :
    pass3N (.elem tag attrs cs) = [.elem tag attrs (pass3L cs)] := by
  rw [pass3N_elem, if_neg h3]

/-- The image rule's output is invisible to the later passes. -/
theorem pass2L_img_br (src : List Char) :
    pass2L [imgNode src, brNode] = .ok [imgNode src, brNode] := rfl

theorem pass3L_img_br (src : List Char) :
    pass3L [imgNode src, brNode] = [imgNode src, brNode] := rfl

/-- The attachment rule's output as the video pass sees it. -/
theorem pass3L_aNode (href txt : List Char) :
    pass3L [aNode href txt] =
      (if videoSuffix href = true then [Node.text (videoMd href)] else [aNode href txt]) := by
  rw [pass3L_single]
  show pass3N (.elem tagA [(attrHref, href)] [.text txt]) = _
  have hup : (lookupAttr [(attrHref, href)] attrHref).getD [] = href := rfl
  by_cases hv : videoSuffix href = true
  · rw [pass3N_video _ _ _ ⟨rfl, by rw [hup]; exact hv⟩, if_pos hv, hup]
  · rw [pass3N_not_video _ _ _ (by rw [hup]; rintro ⟨_, hc⟩; exact hv hc), if_neg hv]
    rfl

theorem oneShotFusedN_img_none (tag : List Char) (attrs : List (List Char × List Char))
    (cs : List Node) (h1 : tag = tagAcImage) (hcu : childUrl cs = .ok none) :
    oneShotFusedN (.elem tag attrs cs)
      = (oneShotFusedL cs >>= fun cs' => .ok [.elem tag attrs cs']) := by
  rw [oneShotFusedN_elem, if_pos h1, hcu]

theorem oneShotFusedN_img_some (tag : List Char) (attrs : List (List Char × List Char))
    (cs : List Node) (f : List Char) (h1 : tag = tagAcImage)
    (hcu : childUrl cs = .ok (some f)) :
    oneShotFusedN (.elem tag attrs cs)
      = .ok [imgNode (attJoin "attachments".data f), brNode] := by
  rw [oneShotFusedN_elem, if_pos h1, hcu]

theorem oneShotFusedN_att_some (tag : List Char) (attrs : List (List Char × List Char))
    (cs : List Node) (f : List Char) (h1 : ¬ tag = tagAcImage)
    (h2 : tag = tagAcLink ∧ lookupAttr attrs attrLinkType = some attachVal)
    (hf : lookupAttr attrs attrRiFilename = some f) :
    oneShotFusedN (.elem tag attrs cs)
      = (if videoSuffix (attJoin "attachments".data f) = true then
          .ok [.text (videoMd (attJoin "attachments".data f))]
        else .ok [aNode (attJoin "attachments".data f) f]) := by
  rw [oneShotFusedN_elem, if_neg h1, if_pos h2, hf]

theorem oneShotFusedN_video (tag : List Char) (attrs : List (List Char × List Char))
    (cs : List Node) (h1 : ¬ tag = tagAcImage)
    (h2 : ¬ (tag = tagAcLink ∧ lookupAttr attrs attrLinkType = some attachVal))
    (h3 : tag = tagA ∧ videoSuffix ((lookupAttr attrs attrHref).getD []) = true) :
    oneShotFusedN (.elem tag attrs cs)
      = .ok [.text (videoMd ((lookupAttr attrs attrHref).getD []))] := by
  rw [oneShotFusedN_elem, if_neg h1, if_neg h2, if_pos h3]

theorem oneShotFusedN_plain (tag : List Char) (attrs : List (List Char × List Char))
    (cs : List Node) (h1 : ¬ tag = tagAcImage)
    (h2 : ¬ (tag = tagAcLink ∧ lookupAttr attrs attrLinkType = some attachVal))
    (h3 : ¬ (tag = tagA ∧ videoSuffix ((lookupAttr attrs attrHref).getD []) = true)) :
    oneShotFusedN (.elem tag attrs cs)
      = (oneShotFusedL cs >>= fun cs' => .ok [.elem tag attrs cs']) := by
  rw [oneShotFusedN_elem, if_neg h1, if_neg h2, if_neg h3]

mutual
theorem convToFusedN (n : Node) : ∀ r : List Node,
    seqConvN n = .ok r → oneShotFusedN n = .ok r := by
  intro r h
  cases n with
  | text s =>
    have hx : seqConvN (.text s) = .ok [.text s] := rfl
    rw [hx] at h
    simp only [Except.ok.injEq] at h
    subst h
    rfl
  | elem tag attrs cs =>
    rw [show seqConvN (.elem tag attrs cs) = (pass1N (.elem tag attrs cs) >>=
      fun a => pass2L a >>= fun b => .ok (pass3L b)) from rfl] at h
    by_cases h1 : tag = tagAcImage
    · cases hcu : childUrl cs with
      | error e =>
        cases e
        rw [pass1N_img_err tag attrs cs h1 hcu, error_bind] at h
        exact absurd h (by simp)
      | ok uo =>
        cases uo with
        | none =>
          rw [pass1N_img_none tag attrs cs h1 hcu] at h
          cases hc1 : pass1L cs with
          | error e =>
            cases e
            rw [hc1, error_bind, error_bind] at h
            exact absurd h (by simp)
          | ok cs1 =>
            rw [hc1, ok_bind, ok_bind, pass2L_single] at h
            have h2' : ¬ (tag = tagAcLink ∧ lookupAttr attrs attrLinkType = some attachVal) := by
              rintro ⟨hceq, _⟩
              rw [h1] at hceq
              exact absurd hceq (by decide)
            rw [pass2N_not_att tag attrs cs1 h2'] at h
            cases hc2 : pass2L cs1 with
            | error e =>
              cases e
              rw [hc2, error_bind, error_bind] at h
              exact absurd h (by simp)
            | ok cs2 =>
              rw [hc2, ok_bind, ok_bind, pass3L_single] at h
              have h3' : ¬ (tag = tagA ∧
                  videoSuffix ((lookupAttr attrs attrHref).getD []) = true) := by
                rintro ⟨hceq, _⟩
                rw [h1] at hceq
                exact absurd hceq (by decide)
              rw [pass3N_not_video tag attrs cs2 h3'] at h
              simp only [Except.ok.injEq] at h
              subst h
              have hih : seqConvL cs = .ok (pass3L cs2) := by
                rw [seqConvL, hc1, ok_bind, hc2, ok_bind]
              rw [oneShotFusedN_img_none tag attrs cs h1 hcu,
                convToFusedL cs (pass3L cs2) hih, ok_bind]
        | some f =>
          rw [pass1N_img_some tag attrs cs f h1 hcu, ok_bind, pass2L_img_br, ok_bind,
            pass3L_img_br] at h
          simp only [Except.ok.injEq] at h
          subst h
          rw [oneShotFusedN_img_some tag attrs cs f h1 hcu]
    · by_cases h2 : tag = tagAcLink ∧ lookupAttr attrs attrLinkType = some attachVal
      · rw [pass1N_not_img tag attrs cs h1] at h
        cases hc1 : pass1L cs with
        | error e =>
          cases e
          rw [hc1, error_bind, error_bind] at h
          exact absurd h (by simp)
        | ok cs1 =>
          rw [hc1, ok_bind, ok_bind, pass2L_single] at h
          cases hf : lookupAttr attrs attrRiFilename with
          | none =>
            rw [pass2N_att_none tag attrs cs1 h2 hf, error_bind] at h
            exact absurd h (by simp)
          | some f =>
            rw [pass2N_att_some tag attrs cs1 f h2 hf, ok_bind, pass3L_aNode] at h
            simp only [Except.ok.injEq] at h
            subst h
            rw [oneShotFusedN_att_some tag attrs cs f h1 h2 hf]
            by_cases hv : videoSuffix (attJoin "attachments".data f) = true
            · rw [if_pos hv, if_pos hv]
            · rw [if_neg hv, if_neg hv]
      · by_cases h3 : tag = tagA ∧ videoSuffix ((lookupAttr attrs attrHref).getD []) = true
        · rw [pass1N_not_img tag attrs cs h1] at h
          cases hc1 : pass1L cs with
          | error e =>
            cases e
            rw [hc1, error_bind, error_bind] at h
            exact absurd h (by simp)
          | ok cs1 =>
            rw [hc1, ok_bind, ok_bind, pass2L_single, pass2N_not_att tag attrs cs1 h2] at h
            cases hc2 : pass2L cs1 with
            | error e =>
              cases e
              rw [hc2, error_bind, error_bind] at h
              exact absurd h (by simp)
            | ok cs2 =>
              rw [hc2, ok_bind, ok_bind, pass3L_single, pass3N_video tag attrs cs2 h3] at h
              simp only [Except.ok.injEq] at h
              subst h
              rw [oneShotFusedN_video tag attrs cs h1 h2 h3]
        · rw [pass1N_not_img tag attrs cs h1] at h
          cases hc1 : pass1L cs with
          | error e =>
            cases e
            rw [hc1, error_bind, error_bind] at h
            exact absurd h (by simp)
          | ok cs1 =>
            rw [hc1, ok_bind, ok_bind, pass2L_single, pass2N_not_att tag attrs cs1 h2] at h
            cases hc2 : pass2L cs1 with
            | error e =>
              cases e
              rw [hc2, error_bind, error_bind] at h
              exact absurd h (by simp)
            | ok cs2 =>
              rw [hc2, ok_bind, ok_bind, pass3L_single, pass3N_not_video tag attrs cs2 h3] at h
              simp only [Except.ok.injEq] at h
              subst h
              have hih : seqConvL cs = .ok (pass3L cs2) := by
                rw [seqConvL, hc1, ok_bind, hc2, ok_bind]
              rw [oneShotFusedN_plain tag attrs cs h1 h2 h3,
                convToFusedL cs (pass3L cs2) hih, ok_bind]

theorem convToFusedL (l : List Node) : ∀ r : List Node,
    seqConvL l = .ok r → oneShotFusedL l = .ok r := by
  intro r h
  cases l with
  | nil =>
    have hx : seqConvL [] = .ok [] := rfl
    rw [hx] at h
    simp only [Except.ok.injEq] at h
    subst h
    rfl
  | cons n rest =>
    rw [show seqConvL (n :: rest) = (pass1L (n :: rest) >>= fun a => pass2L a >>=
      fun b => .ok (pass3L b)) from rfl, pass1L_cons] at h
    cases hn1 : pass1N n with
    | error e =>
      cases e
      rw [hn1, error_bind, error_bind] at h
      exact absurd h (by simp)
    | ok hv =>
      rw [hn1, ok_bind] at h
      cases ht1 : pass1L rest with
      | error e =>
        cases e
        rw [ht1, error_bind, error_bind] at h
        exact absurd h (by simp)
      | ok tv =>
        rw [ht1, ok_bind, ok_bind, pass2L_append] at h
        cases hh2 : pass2L hv with
        | error e =>
          cases e
          rw [hh2, error_bind, error_bind] at h
          exact absurd h (by simp)
        | ok hv2 =>
          rw [hh2, ok_bind] at h
          cases ht2 : pass2L tv with
          | error e =>
            cases e
            rw [ht2, error_bind, error_bind] at h
            exact absurd h (by simp)
          | ok tv2 =>
            rw [ht2, ok_bind, ok_bind, pass3L_append] at h
            simp only [Except.ok.injEq] at h
            subst h
            have hihN : seqConvN n = .ok (pass3L hv2) := by
              rw [seqConvN, hn1, ok_bind, hh2, ok_bind]
            have hihL : seqConvL rest = .ok (pass3L tv2) := by
              rw [seqConvL, ht1, ok_bind, ht2, ok_bind]
            rw [oneShotFusedL_cons, convToFusedN n (pass3L hv2) hihN, ok_bind,
              convToFusedL rest (pass3L tv2) hihL, ok_bind]
end

theorem pass1L_single (n : Node) : pass1L [n] = pass1N n := by
  rw [pass1L_cons]
  cases hn : pass1N n <;> simp only [ok_bind, error_bind]
  show (Except.ok [] >>= fun t => Except.ok (_ ++ t)) = _
  rw [ok_bind]
  simp

theorem childUrl_elem (t : List Char) (a : List (List Char × List Char)) (c : List Node)
    (rest : List Node) :
    childUrl (.elem t a c :: rest) = .ok (lookupAttr a attrRiFilename) := rfl

/-! ### Claim analyses -/

/-- Claim C1 (code bug witness): on the acyclic hierarchy A(children
B, C), B(child D), C(child E), the export succeeds but writes the index
documents of the sibling non-leaf pages B and C to the same path
`A/index.html` (C silently overwrites B), and no page's index document
is placed inside the directory named after that page: a non-leaf page's
index lands in its parent's directory.  This contradicts the claim that
each non-leaf page becomes a directory containing its own index and
that two distinct pages are never written to the same path. -/
theorem c1_sibling_index_collision :
    (dumpPage cfgNoAtt envC1 6 st0 1 []).2 = none ∧
    (dumpPage cfgNoAtt envC1 6 st0 1 []).1.writes =
      [["index.html".data],
       ["A".data, "index.html".data],
       ["A".data, "B".data, "D.html".data],
       ["A".data, "index.html".data],
       ["A".data, "C".data, "E.html".data]] ∧
    (dumpPage cfgNoAtt envC1 6 st0 1 []).1.writes.count ["A".data, "index.html".data] = 2 :=
  ⟨rfl, rfl, rfl⟩

/-- Claim C2 (counterexample): with collections S1 (no home page) and
S2 (home page present), the run logs the error for S1 and then raises
`ExportException("No homepage found")`, aborting the whole run: S1
contributes zero output files, but S2 — which exports fully when S1 is
absent — is never reached either.  The claim that the loop continues to
the next collection is false. -/
theorem c2_no_homepage_aborts_run :
    dump cfgNoAtt envC2 2 st0
      = ({ st0 with log := [.noHomepageLog "S1".data] }, some .noHomepage) ∧
    (dump cfgNoAtt envC2 2 st0).1.writes = [] ∧
    (dump cfgNoAtt envC2b 2 st0).1.writes = [["T.html".data]] :=
  ⟨rfl, rfl, rfl⟩

/-- Claim C2 (amended): a collection without a home page logs the error
and raises, aborting the whole export run: the state is unchanged except
for the diagnostic (zero output files from that collection), and no
later collection in the loop is processed. -/
theorem c2_amended_raise (cfg : Config) (env : Env) (fuel : Nat) (st : ExpState)
    (sp : SpaceRec) (rest : List SpaceRec) (hhp : sp.homepage = none)
    (hfil : cfg.space = none ∨ cfg.space = some sp.key) :
    dumpSpaces cfg env fuel st (sp :: rest)
      = ({ st with log := st.log ++ [.noHomepageLog sp.key] }, some .noHomepage) := by
  simp only [dumpSpaces]
  rw [if_pos hfil]
  simp only [dumpSpace, hhp]

theorem c2_amended_raise_witness :
    dumpSpaces cfgNoAtt envC2 2 st0 [⟨"S1".data, none⟩, ⟨"S2".data, some 1⟩]
      = ({ st0 with log := [.noHomepageLog "S1".data] }, some .noHomepage) :=
  c2_amended_raise cfgNoAtt envC2 2 st0 ⟨"S1".data, none⟩ [⟨"S2".data, some 1⟩] rfl (Or.inl rfl)

/-- Claim C5: the sanitizer removes every ".." and "/" occurrence, is
the identity on clean titles, and is idempotent. -/
theorem c5_sanitizer (t : List Char) :
    ((hasSub ddPat t = true ∨ hasSub slashPat t = true) →
      hasSub ddPat (sanitize t) = false ∧ hasSub slashPat (sanitize t) = false) ∧
    ((hasSub ddPat t = false ∧ hasSub slashPat t = false) → sanitize t = t) ∧
    sanitize (sanitize t) = sanitize t :=
  ⟨fun _ => ⟨sanitize_no_dd t, sanitize_no_slash t⟩,
   fun h => sanitize_clean t h.1 h.2,
   sanitize_idem t⟩

theorem c5_sanitizer_witness :
    hasSub ddPat (sanitize "a/../b".data) = false ∧
    hasSub slashPat (sanitize "a/../b".data) = false ∧
    sanitize (sanitize "a/../b".data) = sanitize "a/../b".data ∧
    sanitize "clean".data = "clean".data :=
  ⟨((c5_sanitizer "a/../b".data).1 (Or.inl (by decide))).1,
   ((c5_sanitizer "a/../b".data).1 (Or.inl (by decide))).2,
   (c5_sanitizer "a/../b".data).2.2,
   (c5_sanitizer "clean".data).2.1 ⟨by decide, by decide⟩⟩

/-- Claim C4: exporting an acyclic, duplicate-free page hierarchy
visits every page id exactly once (the visited set gains exactly the
preorder ids, in order, and the run succeeds); and reaching a page id
already in the visited set raises the duplicate-page error immediately,
with the state unchanged, aborting the run. -/
theorem c4_visits_once :
    (∀ (cfg : Config) (env : Env) (t : PTree) (fuel : Nat) (st : ExpState) (parents : FPath),
      cohEnv env t → (preIds t).Nodup → (∀ i ∈ preIds t, i ∉ st.seen) →
      (preIds t).length ≤ fuel →
      ∃ st', dumpPage cfg env fuel st t.rootId parents = (st', none) ∧
        st'.seen = st.seen ++ preIds t) ∧
    (∀ (cfg : Config) (env : Env) (fuel : Nat) (st : ExpState) (srcId : Nat) (parents : FPath),
      srcId ∈ st.seen →
      dumpPage cfg env (fuel + 1) st srcId parents = (st, some .duplicatePage)) :=
  ⟨fun cfg env t fuel st parents hcoh hnd hdis hsz =>
    dumpPage_tree cfg env fuel t st parents hcoh hnd hdis hsz,
   fun cfg env fuel st srcId parents h => by
    simp only [dumpPage]
    rw [if_pos h]⟩

theorem c4_visits_once_witness :
    (∃ st', dumpPage cfgNoAtt envC4 2 st0 treeC4.rootId [] = (st', none) ∧
      st'.seen = ([] : List Nat) ++ preIds treeC4) ∧
    dumpPage cfgNoAtt envC4 1 { st0 with seen := [7] } 7 [] =
      ({ st0 with seen := [7] }, some .duplicatePage) :=
  ⟨c4_visits_once.1 cfgNoAtt envC4 treeC4 2 st0 []
      (by unfold cohEnv; decide) (by decide) (by decide) (by decide),
   c4_visits_once.2 cfgNoAtt envC4 0 { st0 with seen := [7] } 7 [] (by decide)⟩

/-- Claim C6 (counterexample): with removable-parent list ["D.html"]
and a leaf page titled "D", the export writes the single output path
["D.html"], whose (final) segment is exactly the configured removable
title: a removable-parent title can appear as a path segment, because
the filter is only applied to the directory segments, never to the
filename segment (which always carries the raw-document extension). -/
theorem c6_removable_title_as_filename :
    (dumpPage cfgC6 envC6 1 st0 1 []).1.writes = [["D.html".data]] ∧
    "D.html".data ∈ cfgC6.removableParents ∧
    ∃ p ∈ (dumpPage cfgC6 envC6 1 st0 1 []).1.writes,
      ∃ s ∈ p, s ∈ cfgC6.removableParents :=
  ⟨rfl, by decide, ⟨["D.html".data], by decide, "D.html".data, by decide, by decide⟩⟩

/-- Claim C6 (amended): no removable-parent title ever appears among
the directory (non-final) segments of an output path, except for the
fixed `attachments` folder segment which is outside the elision's
scope; and elision affects path construction only — the visit order,
the raised exception, and (with attachment fetching disabled) the
multiset of written filenames are independent of the removable list
and of the parent chain passed down. -/
theorem c6_elision_scope :
    (∀ (cfg : Config) (env : Env) (fuel : Nat) (st : ExpState) (srcId : Nat) (parents : FPath),
      (∀ p ∈ st.writes, dirSegsOk cfg.removableParents p) →
      ∀ p ∈ (dumpPage cfg env fuel st srcId parents).1.writes,
        dirSegsOk cfg.removableParents p) ∧
    (∀ (env : Env) (fuel : Nat) (cfg1 cfg2 : Config) (s1 s2 : ExpState) (srcId : Nat)
      (p1 p2 : FPath),
      cfg1.noAttach = cfg2.noAttach → s1.seen = s2.seen →
      (cfg1.noAttach = true → s1.writes.map finalSeg = s2.writes.map finalSeg) →
      (dumpPage cfg1 env fuel s1 srcId p1).1.seen
        = (dumpPage cfg2 env fuel s2 srcId p2).1.seen ∧
      (dumpPage cfg1 env fuel s1 srcId p1).2 = (dumpPage cfg2 env fuel s2 srcId p2).2 ∧
      (cfg1.noAttach = true → (dumpPage cfg1 env fuel s1 srcId p1).1.writes.map finalSeg
        = (dumpPage cfg2 env fuel s2 srcId p2).1.writes.map finalSeg)) :=
  ⟨dumpPage_writes_dirs, dumpPage_indep⟩

theorem c6_elision_scope_witness :
    (∀ p ∈ (dumpPage cfgC6 envC6 1 st0 1 []).1.writes, dirSegsOk cfgC6.removableParents p) ∧
    ((dumpPage cfgC6 envC6 1 st0 1 []).1.seen = (dumpPage cfgNoAtt envC6 1 st0 1 []).1.seen ∧
     (dumpPage cfgC6 envC6 1 st0 1 []).2 = (dumpPage cfgNoAtt envC6 1 st0 1 []).2 ∧
     (cfgC6.noAttach = true → (dumpPage cfgC6 envC6 1 st0 1 []).1.writes.map finalSeg
       = (dumpPage cfgNoAtt envC6 1 st0 1 []).1.writes.map finalSeg)) :=
  ⟨c6_elision_scope.1 cfgC6 envC6 1 st0 1 [] (by intro p hp; simp [st0] at hp),
   c6_elision_scope.2 envC6 1 cfgC6 cfgNoAtt st0 st0 1 [] [] rfl rfl (fun _ => rfl)⟩

/-- Claim C3 (counterexample): on a document holding one attachment-typed
link whose filename is `clip.mp4`, the sequential rewriter first applies
the attachment-link rule (producing `<a href="attachments/clip.mp4">`)
and then the video-link rule re-matches and rewrites that freshly
produced hyperlink into the literal video token: two rules fire on the
same element, so the sequential result differs from the
one-rule-per-element semantics. -/
theorem c3_two_rules_fire :
    convertL docC3 = .ok [.text (videoMd "attachments/clip.mp4".data)] ∧
    oneShotL docC3 = .ok [aNode "attachments/clip.mp4".data "clip.mp4".data] ∧
    convertL docC3 ≠ oneShotL docC3 := by
  refine ⟨rfl, rfl, ?_⟩
  intro h
  rw [show convertL docC3 = .ok [.text (videoMd "attachments/clip.mp4".data)] from rfl,
    show oneShotL docC3 = .ok [aNode "attachments/clip.mp4".data "clip.mp4".data] from rfl] at h
  simp [aNode] at h

/-- Claim C3 (amended): whenever the sequential three-pass rewriter
succeeds, its result coincides with a single scan in which every
element is rewritten by at most one rule, except that an
attachment-typed link whose constructed target `attachments/<filename>`
ends in a recognized video extension is rewritten twice — first to a
hyperlink by the attachment rule, then to the literal video token by
the video rule. -/
theorem c3_one_rule_each_except_video (doc r : List Node)
    (h : convertL doc = .ok r) : oneShotFusedL doc = .ok r :=
  convToFusedL doc r ((convertL_eq_seqConvL doc) ▸ h)

theorem c3_one_rule_each_except_video_witness :
    oneShotFusedL docC3 = .ok [.text (videoMd "attachments/clip.mp4".data)] :=
  c3_one_rule_each_except_video docC3 [.text (videoMd "attachments/clip.mp4".data)] rfl

/-- Claim C7 (counterexample): the element `imgC7` is an embedded-image
element referencing filename `f.png` in the claim's sense — its first
descendant carrying a filename carries `f.png` — yet the converter
leaves it completely untouched instead of producing the standard image
element, because the source reads only the *first* child (here a
caption element without a filename) and stops. -/
theorem c7_first_child_only :
    specFirstDescendantFilename imgC7kids = some "f.png".data ∧
    convertL [imgC7] = .ok [imgC7] ∧
    convertL [imgC7] ≠ .ok [imgNode (attJoin "attachments".data "f.png".data), brNode] := by
  refine ⟨rfl, rfl, ?_⟩
  intro h
  rw [show convertL [imgC7] = .ok [imgC7] from rfl] at h
  simp [imgC7, imgNode, imgC7kids, tagAcImage, tagImg] at h

/-- Claim C7 (amended): the rewriter maps an embedded-image element
whose *first child* is an element carrying filename `f` to the standard
image element `attachments/<f>` with identical alt text followed by a
line break; an attachment-typed link carrying filename `g` (with
non-video target) to a standard hyperlink `attachments/<g>` with the
filename as text; a hyperlink whose target ends in a recognized video
extension to the literal video token; and it leaves an embedded-image
element untouched when it has no children or when its first child is an
element not carrying a filename. -/
theorem c7_rewrite_rules :
    (∀ (attrs cattrs : List (List Char × List Char)) (ctag f : List Char)
      (ccs rest : List Node),
      lookupAttr cattrs attrRiFilename = some f →
      convertL [.elem tagAcImage attrs (.elem ctag cattrs ccs :: rest)]
        = .ok [imgNode (attJoin "attachments".data f), brNode]) ∧
    (∀ (attrs : List (List Char × List Char)) (g : List Char) (cs cs1 : List Node),
      lookupAttr attrs attrLinkType = some attachVal →
      lookupAttr attrs attrRiFilename = some g →
      videoSuffix (attJoin "attachments".data g) = false →
      pass1L cs = .ok cs1 →
      convertL [.elem tagAcLink attrs cs] = .ok [aNode (attJoin "attachments".data g) g]) ∧
    (∀ (attrs : List (List Char × List Char)) (href : List Char) (cs cs1 cs2 : List Node),
      lookupAttr attrs attrHref = some href → videoSuffix href = true →
      pass1L cs = .ok cs1 → pass2L cs1 = .ok cs2 →
      convertL [.elem tagA attrs cs] = .ok [.text (videoMd href)]) ∧
    (∀ attrs : List (List Char × List Char),
      convertL [.elem tagAcImage attrs []] = .ok [.elem tagAcImage attrs []]) ∧
    (∀ (attrs : List (List Char × List Char)) (ct : List Char),
      convertL [.elem tagAcImage attrs [.elem ct [] []]]
        = .ok [.elem tagAcImage attrs [.elem ct [] []]]) := by
  refine ⟨?_, ?_, ?_, ?_, ?_⟩
  · intro attrs cattrs ctag f ccs rest hf
    rw [convertL_eq_seqConvL, seqConvL, pass1L_single,
      pass1N_img_some _ _ _ f rfl (by rw [childUrl_elem, hf]), ok_bind, pass2L_img_br,
      ok_bind, pass3L_img_br]
  · intro attrs g cs cs1 hlt hrf hnv hcs1
    rw [convertL_eq_seqConvL, seqConvL, pass1L_single,
      pass1N_not_img _ _ _ (by decide), hcs1, ok_bind, ok_bind, pass2L_single,
      pass2N_att_some _ _ _ g ⟨rfl, hlt⟩ hrf, ok_bind, pass3L_aNode, hnv]
    simp
  · intro attrs href cs cs1 cs2 hh hv hcs1 hcs2
    rw [convertL_eq_seqConvL, seqConvL, pass1L_single,
      pass1N_not_img _ _ _ (by decide), hcs1, ok_bind, ok_bind, pass2L_single,
      pass2N_not_att _ _ _ (by rintro ⟨hc, _⟩; exact absurd hc (by decide)), hcs2,
      ok_bind, ok_bind, pass3L_single,
      pass3N_video _ _ _ ⟨rfl, by rw [hh]; exact hv⟩, hh]
    rfl
  · intro attrs
    rw [convertL_eq_seqConvL, seqConvL, pass1L_single,
      pass1N_img_none tagAcImage attrs [] rfl rfl]
    rfl
  · intro attrs ct
    have hinner1 : pass1N (.elem ct [] []) = .ok [.elem ct [] []] := by
      by_cases hct : ct = tagAcImage
      · rw [pass1N_img_none ct [] [] hct rfl]; rfl
      · rw [pass1N_not_img _ _ _ hct]; rfl
    have hinner2 : pass2N (.elem ct [] []) = .ok [.elem ct [] []] := by
      rw [pass2N_not_att _ _ _ (by rintro ⟨_, hl⟩; exact Option.noConfusion hl)]
      rfl
    have hinner3 : pass3N (.elem ct [] []) = [.elem ct [] []] := by
      rw [pass3N_not_video _ _ _ (by rintro ⟨_, hv⟩; exact absurd hv (by decide))]
      rfl
    rw [convertL_eq_seqConvL, seqConvL, pass1L_single,
      pass1N_img_none tagAcImage attrs [.elem ct [] []] rfl rfl, pass1L_single, hinner1,
      ok_bind, ok_bind,
      pass2L_single, pass2N_not_att _ _ _ (by rintro ⟨hc, _⟩; exact absurd hc (by decide)),
      pass2L_single, hinner2, ok_bind, ok_bind, pass3L_single,
      pass3N_not_video _ _ _ (by rintro ⟨hc, _⟩; exact absurd hc (by decide)),
      pass3L_single, hinner3]

theorem c7_rewrite_rules_witness :
    convertL [.elem tagAcImage [] [.elem "ri:attachment".data
        [(attrRiFilename, "f.png".data)] []]]
      = .ok [imgNode (attJoin "attachments".data "f.png".data), brNode] ∧
    convertL [.elem tagAcLink [(attrLinkType, attachVal), (attrRiFilename, "g.pdf".data)] []]
      = .ok [aNode (attJoin "attachments".data "g.pdf".data) "g.pdf".data] ∧
    convertL [.elem tagA [(attrHref, "clip.mp4".data)] [.text "v".data]]
      = .ok [.text (videoMd "clip.mp4".data)] ∧
    convertL [.elem tagAcImage [] []] = .ok [.elem tagAcImage [] []] ∧
    convertL [.elem tagAcImage [] [.elem "ri:caption".data [] []]]
      = .ok [.elem tagAcImage [] [.elem "ri:caption".data [] []]] :=
  ⟨c7_rewrite_rules.1 [] [(attrRiFilename, "f.png".data)] "ri:attachment".data "f.png".data
      [] [] rfl,
   c7_rewrite_rules.2.1 [(attrLinkType, attachVal), (attrRiFilename, "g.pdf".data)]
      "g.pdf".data [] [] rfl rfl (by decide) rfl,
   c7_rewrite_rules.2.2.1 [(attrHref, "clip.mp4".data)] "clip.mp4".data
      [.text "v".data] [.text "v".data] [.text "v".data] rfl (by decide) rfl rfl,
   c7_rewrite_rules.2.2.2.1 [],
   c7_rewrite_rules.2.2.2.2 [] "ri:caption".data⟩

/-- Claim C9: the attachment loop never propagates a transport failure
(the environment quantifies over every transport behaviour, including
failing ones): no exception escapes, every attachment in the page's
listing is processed in order — including those after a failed one —
and the page's traversal state is untouched, so neither the page nor
the run is aborted. -/
theorem c9_transport_failure_contained (env : Env) (pid : Nat) (loc : FPath)
    (st : ExpState) (hpage : fsHas st.fs loc = true) :
    (fetchAttachments env pid loc st).2 = none ∧
    (fetchAttachments env pid loc st).1.attLog
      = st.attLog ++ (env.attachments pid).map (·.title) ∧
    (fetchAttachments env pid loc st).1.seen = st.seen := by
  obtain ⟨st', heq, hseen, _, hatt, _⟩ := fetchAttachments_ok env pid loc st hpage
  rw [heq]
  exact ⟨rfl, hatt, hseen⟩

theorem c9_transport_failure_contained_witness :
    (fetchAttachments envW9 1 ["p.html".data] stW9).2 = none ∧
    (fetchAttachments envW9 1 ["p.html".data] stW9).1.attLog
      = stW9.attLog ++ (envW9.attachments 1).map (·.title) ∧
    (fetchAttachments envW9 1 ["p.html".data] stW9).1.seen = stW9.seen :=
  c9_transport_failure_contained envW9 1 ["p.html".data] stW9 (by decide)

/-- Claim C8: materializing an unchanged image attachment twice
performs exactly one download.  The first run invokes the download
collaborator once (recorded in `downloads`) and the stream succeeds;
the second run finds the file at the target path, performs no download,
leaves the filesystem untouched, and emits the informational skip
diagnostic. -/
theorem c8_second_run_skips (env : Env) (pid : Nat) (loc : FPath) (st : ExpState)
    (a : Att) (chunks : List (List Char))
    (henv : env.attachments pid = [a])
    (him : "image/".data.isPrefixOf a.mediaType = true)
    (htr : env.transport (mkAttUrl env a.downloadRef) = .stream chunks false)
    (hex : fsHas st.fs (loc.dropLast ++ [attFolderSeg, sanitize a.title]) = false) :
    (fetchAttachments env pid loc st).2 = none ∧
    (fetchAttachments env pid loc st).1.downloads
      = st.downloads ++ [mkAttUrl env a.downloadRef] ∧
    (fetchAttachments env pid loc (fetchAttachments env pid loc st).1).2 = none ∧
    (fetchAttachments env pid loc (fetchAttachments env pid loc st).1).1.downloads
      = (fetchAttachments env pid loc st).1.downloads ∧
    (fetchAttachments env pid loc (fetchAttachments env pid loc st).1).1.fs
      = (fetchAttachments env pid loc st).1.fs ∧
    (fetchAttachments env pid loc (fetchAttachments env pid loc st).1).1.log
      = (fetchAttachments env pid loc st).1.log
        ++ [.skipExisting (loc.dropLast ++ [attFolderSeg, sanitize a.title])] := by
  have h1 : fetchAttachments env pid loc st =
      (⟨st.seen, fsSet st.fs (loc.dropLast ++ [attFolderSeg, sanitize a.title]) chunks.flatten,
        st.writes ++ [loc.dropLast ++ [attFolderSeg, sanitize a.title]],
        st.downloads ++ [mkAttUrl env a.downloadRef],
        st.attLog ++ [a.title], st.log⟩, none) := by
    simp only [fetchAttachments, henv, runAtts, processAtt]
    rw [if_pos him, if_neg (by rw [hex]; exact Bool.false_ne_true)]
    simp only [downloadAttachment, htr]
    rw [if_neg Bool.false_ne_true]
  rw [h1]
  have h2 : fetchAttachments env pid loc
      (⟨st.seen, fsSet st.fs (loc.dropLast ++ [attFolderSeg, sanitize a.title]) chunks.flatten,
        st.writes ++ [loc.dropLast ++ [attFolderSeg, sanitize a.title]],
        st.downloads ++ [mkAttUrl env a.downloadRef],
        st.attLog ++ [a.title], st.log⟩ : ExpState) =
      (⟨st.seen, fsSet st.fs (loc.dropLast ++ [attFolderSeg, sanitize a.title]) chunks.flatten,
        st.writes ++ [loc.dropLast ++ [attFolderSeg, sanitize a.title]],
        st.downloads ++ [mkAttUrl env a.downloadRef],
        st.attLog ++ [a.title] ++ [a.title],
        st.log ++ [.skipExisting (loc.dropLast ++ [attFolderSeg, sanitize a.title])]⟩,
       none) := by
    simp only [fetchAttachments, henv, runAtts, processAtt]
    rw [if_pos him, if_pos (fsHas_fsSet_self _ _ _)]
  rw [h2]
  exact ⟨rfl, rfl, rfl, rfl, rfl, rfl⟩

theorem c8_second_run_skips_witness :
    (fetchAttachments envW8 1 ["p.html".data] st0).2 = none ∧
    (fetchAttachments envW8 1 ["p.html".data] st0).1.downloads
      = st0.downloads ++ [mkAttUrl envW8 attW.downloadRef] ∧
    (fetchAttachments envW8 1 ["p.html".data] (fetchAttachments envW8 1 ["p.html".data] st0).1).2
      = none ∧
    (fetchAttachments envW8 1 ["p.html".data]
        (fetchAttachments envW8 1 ["p.html".data] st0).1).1.downloads
      = (fetchAttachments envW8 1 ["p.html".data] st0).1.downloads ∧
    (fetchAttachments envW8 1 ["p.html".data]
        (fetchAttachments envW8 1 ["p.html".data] st0).1).1.fs
      = (fetchAttachments envW8 1 ["p.html".data] st0).1.fs ∧
    (fetchAttachments envW8 1 ["p.html".data]
        (fetchAttachments envW8 1 ["p.html".data] st0).1).1.log
      = (fetchAttachments envW8 1 ["p.html".data] st0).1.log
        ++ [.skipExisting ((["p.html".data] : FPath).dropLast
              ++ [attFolderSeg, sanitize attW.title])] :=
  c8_second_run_skips envW8 1 ["p.html".data] st0 attW ["ab".data] rfl (by decide) rfl rfl

/-- Claim C10: attachment download is not atomic on error.  A transport
failure mid-stream leaves the chunks already received as a partial file
at the target path (the error is merely logged), and any later
materialization of the same attachment sees that a file exists and
skips the download, so the truncated content is never re-downloaded or
repaired. -/
theorem c10_partial_file_persists (env : Env) (pid : Nat) (loc : FPath) (st : ExpState)
    (a : Att) (chunks : List (List Char))
    (henv : env.attachments pid = [a])
    (him : "image/".data.isPrefixOf a.mediaType = true)
    (htr : env.transport (mkAttUrl env a.downloadRef) = .stream chunks true)
    (hex : fsHas st.fs (loc.dropLast ++ [attFolderSeg, sanitize a.title]) = false) :
    (fetchAttachments env pid loc st).2 = none ∧
    fsGet (fetchAttachments env pid loc st).1.fs
        (loc.dropLast ++ [attFolderSeg, sanitize a.title]) = some chunks.flatten ∧
    (fetchAttachments env pid loc st).1.log
      = st.log ++ [.downloadError (mkAttUrl env a.downloadRef)] ∧
    (fetchAttachments env pid loc (fetchAttachments env pid loc st).1).2 = none ∧
    (fetchAttachments env pid loc (fetchAttachments env pid loc st).1).1.downloads
      = (fetchAttachments env pid loc st).1.downloads ∧
    fsGet (fetchAttachments env pid loc (fetchAttachments env pid loc st).1).1.fs
        (loc.dropLast ++ [attFolderSeg, sanitize a.title]) = some chunks.flatten ∧
    (fetchAttachments env pid loc (fetchAttachments env pid loc st).1).1.log
      = (fetchAttachments env pid loc st).1.log
        ++ [.skipExisting (loc.dropLast ++ [attFolderSeg, sanitize a.title])] := by
  have h1 : fetchAttachments env pid loc st =
      (⟨st.seen, fsSet st.fs (loc.dropLast ++ [attFolderSeg, sanitize a.title]) chunks.flatten,
        st.writes ++ [loc.dropLast ++ [attFolderSeg, sanitize a.title]],
        st.downloads ++ [mkAttUrl env a.downloadRef],
        st.attLog ++ [a.title],
        st.log ++ [.downloadError (mkAttUrl env a.downloadRef)]⟩, none) := by
    simp only [fetchAttachments, henv, runAtts, processAtt]
    rw [if_pos him, if_neg (by rw [hex]; exact Bool.false_ne_true)]
    simp only [downloadAttachment, htr]
    rw [if_pos trivial]
  rw [h1]
  have h2 : fetchAttachments env pid loc
      (⟨st.seen, fsSet st.fs (loc.dropLast ++ [attFolderSeg, sanitize a.title]) chunks.flatten,
        st.writes ++ [loc.dropLast ++ [attFolderSeg, sanitize a.title]],
        st.downloads ++ [mkAttUrl env a.downloadRef],
        st.attLog ++ [a.title],
        st.log ++ [.downloadError (mkAttUrl env a.downloadRef)]⟩ : ExpState) =
      (⟨st.seen, fsSet st.fs (loc.dropLast ++ [attFolderSeg, sanitize a.title]) chunks.flatten,
        st.writes ++ [loc.dropLast ++ [attFolderSeg, sanitize a.title]],
        st.downloads ++ [mkAttUrl env a.downloadRef],
        st.attLog ++ [a.title] ++ [a.title],
        st.log ++ [.downloadError (mkAttUrl env a.downloadRef)]
          ++ [.skipExisting (loc.dropLast ++ [attFolderSeg, sanitize a.title])]⟩,
       none) := by
    simp only [fetchAttachments, henv, runAtts, processAtt]
    rw [if_pos him, if_pos (fsHas_fsSet_self _ _ _)]
  rw [h2]
  exact ⟨rfl, fsGet_fsSet_eq _ _ _, rfl, rfl, rfl, fsGet_fsSet_eq _ _ _, rfl⟩

theorem c10_partial_file_persists_witness :
    (fetchAttachments envW10 1 ["p.html".data] st0).2 = none ∧
    fsGet (fetchAttachments envW10 1 ["p.html".data] st0).1.fs
        ((["p.html".data] : FPath).dropLast ++ [attFolderSeg, sanitize attW.title])
      = some (["ab".data] : List (List Char)).flatten ∧
    (fetchAttachments envW10 1 ["p.html".data] st0).1.log
      = st0.log ++ [.downloadError (mkAttUrl envW10 attW.downloadRef)] ∧
    (fetchAttachments envW10 1 ["p.html".data]
        (fetchAttachments envW10 1 ["p.html".data] st0).1).2 = none ∧
    (fetchAttachments envW10 1 ["p.html".data]
        (fetchAttachments envW10 1 ["p.html".data] st0).1).1.downloads
      = (fetchAttachments envW10 1 ["p.html".data] st0).1.downloads ∧
    fsGet (fetchAttachments envW10 1 ["p.html".data]
        (fetchAttachments envW10 1 ["p.html".data] st0).1).1.fs
        ((["p.html".data] : FPath).dropLast ++ [attFolderSeg, sanitize attW.title])
      = some (["ab".data] : List (List Char)).flatten ∧
    (fetchAttachments envW10 1 ["p.html".data]
        (fetchAttachments envW10 1 ["p.html".data] st0).1).1.log
      = (fetchAttachments envW10 1 ["p.html".data] st0).1.log
        ++ [.skipExisting ((["p.html".data] : FPath).dropLast
              ++ [attFolderSeg, sanitize attW.title])] :=
  c10_partial_file_persists envW10 1 ["p.html".data] st0 attW ["ab".data] rfl (by decide) rfl rfl
